import Mathlib

/-!
Verification of the phase-plane numerical/geometric engine (`src/lib.ts`).

The engine's scalar arithmetic is modelled two ways:

* `ℚ` (exact rational arithmetic) for the coordinate transform, the
  marching-squares contour extractor, segment stitching and Newton polishing,
  where the claims are about exact algebraic structure;
* `JsNum` (rationals extended with signed infinities and NaN, mirroring the
  JavaScript number line minus overflow and signed zero) for the RK4
  integrator, whose claims are about the `isFinite` / bounds break condition.

`Math.hypot e₁ e₂ < c` comparisons (with `c ≥ 0`) are modelled as
`e₁^2 + e₂^2 < c^2`, which is equivalent and keeps everything rational.
-/

namespace PhasePlane

/-- A point in world or screen space (`Vec2` in the source). -/
structure Vec2 where
  x : ℚ
  y : ℚ
deriving DecidableEq, Repr

/-- The view rectangle with its mapping operators (`class Transform`). -/
@[ext] structure Transform where
  xmin : ℚ
  xmax : ℚ
  ymin : ℚ
  ymax : ℚ
deriving DecidableEq, Repr

/-- `Transform.toScreen(w, h, p)`. -/
def Transform.toScreen (T : Transform) (w h : ℚ) (p : Vec2) : Vec2 :=
  { x := (p.x - T.xmin) / (T.xmax - T.xmin) * w
    y := h - (p.y - T.ymin) / (T.ymax - T.ymin) * h }

/-- `Transform.toWorld(w, h, p)`. -/
def Transform.toWorld (T : Transform) (w h : ℚ) (p : Vec2) : Vec2 :=
  { x := p.x / w * (T.xmax - T.xmin) + T.xmin
    y := (h - p.y) / h * (T.ymax - T.ymin) + T.ymin }

/-- `Transform.zoom(cx, cy, factor)`; the in-place mutation is modelled as
returning the updated rectangle. -/
def Transform.zoom (T : Transform) (cx cy factor : ℚ) : Transform :=
  let xr := T.xmax - T.xmin
  let yr := T.ymax - T.ymin
  let nxr := xr / factor
  let nyr := yr / factor
  let xmin' := cx - (cx - T.xmin) * (nxr / xr)
  let ymin' := cy - (cy - T.ymin) * (nyr / yr)
  { xmin := xmin', xmax := xmin' + nxr, ymin := ymin', ymax := ymin' + nyr }

/-- `Transform.pan(dx, dy)`. -/
def Transform.pan (T : Transform) (dx dy : ℚ) : Transform :=
  { xmin := T.xmin + dx, xmax := T.xmax + dx
    ymin := T.ymin + dy, ymax := T.ymax + dy }

/-- Absolute tolerance `1e-9` from the zoom-invertibility property. -/
def invTol : ℚ := 1 / 10 ^ 9

/-- Closed form of `zoom` on a non-degenerate rectangle. -/
lemma zoom_bounds (T : Transform) (cx cy f : ℚ)
    (hxr : T.xmax - T.xmin ≠ 0) (hyr : T.ymax - T.ymin ≠ 0) (hf : f ≠ 0) :
    T.zoom cx cy f =
      { xmin := cx - (cx - T.xmin) / f
        xmax := cx - (cx - T.xmin) / f + (T.xmax - T.xmin) / f
        ymin := cy - (cy - T.ymin) / f
        ymax := cy - (cy - T.ymin) / f + (T.ymax - T.ymin) / f } := by
  ext <;> (simp only [Transform.zoom]; field_simp; ring)

/-- C5: `zoom(cx,cy,f)` followed by `zoom(cx,cy,1/f)` restores all four bounds
within `1e-9` absolute tolerance (in exact arithmetic they are restored
exactly), and `pan(dx,dy)` followed by `pan(-dx,-dy)` restores them exactly. -/
theorem zoom_pan_inverse (T : Transform) (cx cy f dx dy : ℚ)
    (hx : T.xmin < T.xmax) (hy : T.ymin < T.ymax) (hf : 0 < f) :
    (|((T.zoom cx cy f).zoom cx cy (1 / f)).xmin - T.xmin| ≤ invTol ∧
      |((T.zoom cx cy f).zoom cx cy (1 / f)).xmax - T.xmax| ≤ invTol ∧
      |((T.zoom cx cy f).zoom cx cy (1 / f)).ymin - T.ymin| ≤ invTol ∧
      |((T.zoom cx cy f).zoom cx cy (1 / f)).ymax - T.ymax| ≤ invTol) ∧
    (T.pan dx dy).pan (-dx) (-dy) = T := by
  have hxr : T.xmax - T.xmin ≠ 0 := by linarith
  have hyr : T.ymax - T.ymin ≠ 0 := by linarith
  have hf' : f ≠ 0 := ne_of_gt hf
  have hz : (T.zoom cx cy f).zoom cx cy (1 / f) = T := by
    rw [zoom_bounds T cx cy f hxr hyr hf']
    rw [zoom_bounds _ cx cy (1 / f) (by field_simp; exact hxr) (by field_simp; exact hyr)
      (by simpa using hf')]
    ext <;> (simp only; field_simp; try ring)
  refine ⟨?_, ?_⟩
  · rw [hz]
    simp only [sub_self, abs_zero]
    refine ⟨?_, ?_, ?_, ?_⟩ <;> (unfold invTol; norm_num)
  · ext <;> (simp only [Transform.pan]; ring)

/-- Witness for `zoom_pan_inverse` at a concrete rectangle. -/
theorem zoom_pan_inverse_witness :
    ((0 : ℚ) < 2 ∧
      (|(((Transform.mk 0 2 0 2).zoom 1 1 2).zoom 1 1 (1 / 2)).xmin - 0| ≤ invTol ∧
        |(((Transform.mk 0 2 0 2).zoom 1 1 2).zoom 1 1 (1 / 2)).xmax - 2| ≤ invTol ∧
        |(((Transform.mk 0 2 0 2).zoom 1 1 2).zoom 1 1 (1 / 2)).ymin - 0| ≤ invTol ∧
        |(((Transform.mk 0 2 0 2).zoom 1 1 2).zoom 1 1 (1 / 2)).ymax - 2| ≤ invTol) ∧
      ((Transform.mk 0 2 0 2).pan 3 4).pan (-3) (-4) = Transform.mk 0 2 0 2) :=
  ⟨by norm_num,
    (zoom_pan_inverse (Transform.mk 0 2 0 2) 1 1 2 3 4 (by norm_num) (by norm_num)
      (by norm_num)).1,
    (zoom_pan_inverse (Transform.mk 0 2 0 2) 1 1 2 3 4 (by norm_num) (by norm_num)
      (by norm_num)).2⟩

/-- C7: for positive canvas dimensions and a non-degenerate rectangle,
`toWorld(w, h, toScreen(w, h, p)) = p`. -/
theorem toWorld_toScreen (T : Transform) (w h : ℚ) (p : Vec2)
    (hw : 0 < w) (hh : 0 < h) (hx : T.xmin < T.xmax) (hy : T.ymin < T.ymax) :
    T.toWorld w h (T.toScreen w h p) = p := by
  have hxr : T.xmax - T.xmin ≠ 0 := by linarith
  have hyr : T.ymax - T.ymin ≠ 0 := by linarith
  have hw' : w ≠ 0 := ne_of_gt hw
  have hh' : h ≠ 0 := ne_of_gt hh
  cases p with
  | mk px py =>
    simp only [Transform.toScreen, Transform.toWorld, Vec2.mk.injEq]
    constructor <;> (field_simp; ring)

/-- Witness for `toWorld_toScreen` at a concrete input. -/
theorem toWorld_toScreen_witness :
    (0 : ℚ) < 100 ∧
      (Transform.mk (-10) 10 (-10) 10).toWorld 100 100
        ((Transform.mk (-10) 10 (-10) 10).toScreen 100 100 (Vec2.mk 3 4)) =
        Vec2.mk 3 4 :=
  ⟨by norm_num,
    toWorld_toScreen (Transform.mk (-10) 10 (-10) 10) 100 100 (Vec2.mk 3 4)
      (by norm_num) (by norm_num) (by norm_num) (by norm_num)⟩

/-- C8: the ViewRect invariant `xmin < xmax ∧ ymin < ymax` is preserved by
`pan` (any offsets) and by `zoom` with any positive factor. -/
theorem viewRect_invariant_preserved (T : Transform) (cx cy f dx dy : ℚ)
    (hx : T.xmin < T.xmax) (hy : T.ymin < T.ymax) (hf : 0 < f) :
    ((T.pan dx dy).xmin < (T.pan dx dy).xmax ∧
      (T.pan dx dy).ymin < (T.pan dx dy).ymax) ∧
    ((T.zoom cx cy f).xmin < (T.zoom cx cy f).xmax ∧
      (T.zoom cx cy f).ymin < (T.zoom cx cy f).ymax) := by
  have hxr : T.xmax - T.xmin ≠ 0 := by linarith
  have hyr : T.ymax - T.ymin ≠ 0 := by linarith
  have hb := zoom_bounds T cx cy f hxr hyr (ne_of_gt hf)
  have hdx : 0 < (T.xmax - T.xmin) / f := div_pos (by linarith) hf
  have hdy : 0 < (T.ymax - T.ymin) / f := div_pos (by linarith) hf
  refine ⟨⟨by simp only [Transform.pan]; linarith, by simp only [Transform.pan]; linarith⟩,
    ?_, ?_⟩ <;> (rw [hb]; simp only; linarith)

/-- Witness for `viewRect_invariant_preserved` at a concrete input. -/
theorem viewRect_invariant_preserved_witness :
    (0 : ℚ) < 3 ∧
      ((((Transform.mk 0 1 0 1).pan 5 7).xmin < ((Transform.mk 0 1 0 1).pan 5 7).xmax ∧
        ((Transform.mk 0 1 0 1).pan 5 7).ymin < ((Transform.mk 0 1 0 1).pan 5 7).ymax) ∧
      (((Transform.mk 0 1 0 1).zoom 2 2 3).xmin < ((Transform.mk 0 1 0 1).zoom 2 2 3).xmax ∧
        ((Transform.mk 0 1 0 1).zoom 2 2 3).ymin < ((Transform.mk 0 1 0 1).zoom 2 2 3).ymax)) :=
  ⟨by norm_num,
    viewRect_invariant_preserved (Transform.mk 0 1 0 1) 2 2 3 5 7 (by norm_num)
      (by norm_num) (by norm_num)⟩

/-! ### Marching-squares contour extraction (`zeroContourSegments`) -/

/-- A scalar field `(x, y) → value` (`type ScalarField` in the source). -/
abbrev ScalarField : Type := ℚ → ℚ → ℚ

/-- An unordered contour segment `{a, b}` as produced per cell. -/
structure Seg where
  a : Vec2
  b : Vec2
deriving DecidableEq, Repr

/-- The degenerate-zero threshold `1e-15`. -/
def contourEps : ℚ := 1 / 10 ^ 15

/-- The epsilon adjustment applied to every sampled value:
`Math.abs(v) < 1e-15 ? (v >= 0 ? 1e-15 : -1e-15) : v`. -/
def adjustEps (v : ℚ) : ℚ :=
  if |v| < contourEps then (if 0 ≤ v then contourEps else -contourEps) else v

/-- `lerpZero(x1, y1, v1, x2, y2, v2)`. -/
def lerpZero (x1 y1 v1 x2 y2 v2 : ℚ) : Vec2 :=
  let t := v1 / (v1 - v2)
  { x := x1 + t * (x2 - x1), y := y1 + t * (y2 - y1) }

/-- The sampled (and epsilon-adjusted) grid value `val[j][i]`. -/
def gridVal (T : Transform) (field : ScalarField) (cols rows : ℕ) (j i : ℕ) : ℚ :=
  let dx := (T.xmax - T.xmin) / cols
  let dy := (T.ymax - T.ymin) / rows
  adjustEps (field (T.xmin + i * dx) (T.ymin + j * dy))

/-- The per-cell `edgePoint` helper (edges 0 = left, 1 = bottom, 2 = right,
3 = top); the default arm mirrors the source's `default` case. -/
def edgePoint (x0 x1 y0 y1 v00 v10 v11 v01 : ℚ) : ℕ → Vec2
  | 0 => lerpZero x0 y0 v00 x0 y1 v01
  | 1 => lerpZero x0 y0 v00 x1 y0 v10
  | 2 => lerpZero x1 y0 v10 x1 y1 v11
  | 3 => lerpZero x0 y1 v01 x1 y1 v11
  | _ => { x := x0, y := y0 }

/-- The 4-bit corner-sign code; the source's bitwise OR of the disjoint bits
`1, 2, 4, 8` is written as a sum. -/
def cellCode (v00 v10 v11 v01 : ℚ) : ℕ :=
  (if 0 < v00 then 1 else 0) + (if 0 < v10 then 2 else 0) +
    (if 0 < v11 then 4 else 0) + (if 0 < v01 then 8 else 0)

/-- The source's `switch (c)` emission table (codes 0 and 15 fall through the
`continue` guard, i.e. the catch-all arm). -/
def codeEmit (e : ℕ → Vec2) : ℕ → List Seg
  | 1 | 14 => [⟨e 0, e 1⟩]
  | 2 | 13 => [⟨e 1, e 2⟩]
  | 3 | 12 => [⟨e 0, e 2⟩]
  | 4 | 11 => [⟨e 2, e 3⟩]
  | 5 => [⟨e 0, e 1⟩, ⟨e 2, e 3⟩]
  | 6 | 9 => [⟨e 1, e 3⟩]
  | 7 | 8 => [⟨e 0, e 3⟩]
  | 10 => [⟨e 0, e 2⟩, ⟨e 1, e 3⟩]
  | _ => []

/-- The segments contributed by grid cell `(i, j)`. -/
def cellSegments (T : Transform) (field : ScalarField) (cols rows : ℕ)
    (j i : ℕ) : List Seg :=
  let dx := (T.xmax - T.xmin) / cols
  let dy := (T.ymax - T.ymin) / rows
  let x0 := T.xmin + i * dx
  let x1 := x0 + dx
  let y0 := T.ymin + j * dy
  let y1 := y0 + dy
  let v00 := gridVal T field cols rows j i
  let v10 := gridVal T field cols rows j (i + 1)
  let v11 := gridVal T field cols rows (j + 1) (i + 1)
  let v01 := gridVal T field cols rows (j + 1) i
  codeEmit (edgePoint x0 x1 y0 y1 v00 v10 v11 v01) (cellCode v00 v10 v11 v01)

/-- `zeroContourSegments(T, field, cols, rows)`. -/
def zeroContourSegments (T : Transform) (field : ScalarField)
    (cols rows : ℕ) : List Seg :=
  (List.range rows).flatMap fun j =>
    (List.range cols).flatMap fun i => cellSegments T field cols rows j i

/-- Modelled from the spec's emission-table sentence: the table keyed on the
cell code, written as the spec groups it. -/
def specEmit (c : ℕ) (e : ℕ → Vec2) : List Seg :=
  if c = 0 ∨ c = 15 then []
  else if c = 1 ∨ c = 14 then [⟨e 0, e 1⟩]
  else if c = 2 ∨ c = 13 then [⟨e 1, e 2⟩]
  else if c = 3 ∨ c = 12 then [⟨e 0, e 2⟩]
  else if c = 4 ∨ c = 11 then [⟨e 2, e 3⟩]
  else if c = 7 ∨ c = 8 then [⟨e 0, e 3⟩]
  else if c = 6 ∨ c = 9 then [⟨e 1, e 3⟩]
  else if c = 5 then [⟨e 0, e 1⟩, ⟨e 2, e 3⟩]
  else if c = 10 then [⟨e 0, e 2⟩, ⟨e 1, e 3⟩]
  else []

/-- Modelled from the spec: contour extraction with the spec's emission table
substituted for the source's switch statement. -/
def specContourSegments (T : Transform) (field : ScalarField)
    (cols rows : ℕ) : List Seg :=
  (List.range rows).flatMap fun j =>
    (List.range cols).flatMap fun i =>
      let dx := (T.xmax - T.xmin) / cols
      let dy := (T.ymax - T.ymin) / rows
      let x0 := T.xmin + i * dx
      let x1 := x0 + dx
      let y0 := T.ymin + j * dy
      let y1 := y0 + dy
      let v00 := gridVal T field cols rows j i
      let v10 := gridVal T field cols rows j (i + 1)
      let v11 := gridVal T field cols rows (j + 1) (i + 1)
      let v01 := gridVal T field cols rows (j + 1) i
      specEmit (cellCode v00 v10 v11 v01) (edgePoint x0 x1 y0 y1 v00 v10 v11 v01)

lemma cellCode_lt (v00 v10 v11 v01 : ℚ) : cellCode v00 v10 v11 v01 < 16 := by
  unfold cellCode
  split_ifs <;> norm_num

lemma codeEmit_eq_specEmit (e : ℕ → Vec2) (c : ℕ) (hc : c < 16) :
    codeEmit e c = specEmit c e := by
  interval_cases c <;> rfl

/-- C4: each cell is classified by the 4-bit sign code over the
epsilon-adjusted corner values, and segments are emitted exactly per the
spec's fixed table with endpoints linearly interpolated to the zero
crossing. -/
theorem contour_emission_table (T : Transform) (field : ScalarField)
    (cols rows : ℕ) :
    zeroContourSegments T field cols rows = specContourSegments T field cols rows := by
  unfold zeroContourSegments specContourSegments cellSegments
  congr 1
  funext j
  congr 1
  funext i
  exact codeEmit_eq_specEmit _ _ (cellCode_lt _ _ _ _)

/-- C6: a sampled value of magnitude below `1e-15` is replaced by the signed
epsilon matching its sign (zero counts as positive); larger values pass
through unchanged; and the grid samples fed to the sign classification are
exactly the epsilon-adjusted field values. -/
theorem contour_eps_adjust (v : ℚ) :
    (|v| < contourEps → adjustEps v = (if 0 ≤ v then contourEps else -contourEps)) ∧
      (contourEps ≤ |v| → adjustEps v = v) ∧ adjustEps 0 = contourEps ∧
      ∀ (T : Transform) (field : ScalarField) (cols rows j i : ℕ),
        gridVal T field cols rows j i =
          adjustEps (field (T.xmin + i * ((T.xmax - T.xmin) / cols))
            (T.ymin + j * ((T.ymax - T.ymin) / rows))) := by
  refine ⟨fun h => ?_, fun h => ?_, ?_, fun T field cols rows j i => rfl⟩
  · rw [adjustEps, if_pos h]
  · rw [adjustEps, if_neg (not_lt.mpr h)]
  · rw [adjustEps, if_pos (by norm_num [contourEps]), if_pos le_rfl]

/-- Witness for `contour_eps_adjust`: a tiny negative sample is replaced by
`-1e-15`, and a large sample passes through unchanged. -/
theorem contour_eps_adjust_witness :
    (|(-1 : ℚ) / 10 ^ 16| < contourEps ∧
        adjustEps ((-1 : ℚ) / 10 ^ 16) = -contourEps) ∧
      contourEps ≤ |(2 : ℚ)| ∧ adjustEps 2 = 2 := by
  have h1 : |(-1 : ℚ) / 10 ^ 16| < contourEps := by
    rw [abs_div, abs_neg, abs_one, abs_of_pos (by positivity)]
    norm_num [contourEps]
  have h2 : contourEps ≤ |(2 : ℚ)| := by norm_num [contourEps]
  refine ⟨⟨h1, ?_⟩, h2, (contour_eps_adjust 2).2.1 h2⟩
  rw [(contour_eps_adjust ((-1 : ℚ) / 10 ^ 16)).1 h1, if_neg (by norm_num)]

/-! ### C10: contour endpoints lie inside the sampled rectangle -/

/-- Inclusive point-in-rectangle test. -/
def inRectB (T : Transform) (p : Vec2) : Bool :=
  decide (T.xmin ≤ p.x) && decide (p.x ≤ T.xmax) &&
    decide (T.ymin ≤ p.y) && decide (p.y ≤ T.ymax)

/-- Both endpoints of a segment lie inside the rectangle. -/
def segInRectB (T : Transform) (s : Seg) : Bool := inRectB T s.a && inRectB T s.b

/-- Two adjusted corner values of strictly opposite sign. -/
def oppSign (v1 v2 : ℚ) : Prop := (0 < v1 ∧ v2 < 0) ∨ (v1 < 0 ∧ 0 < v2)

lemma inRectB_eq_true (T : Transform) (p : Vec2) :
    inRectB T p = true ↔
      T.xmin ≤ p.x ∧ p.x ≤ T.xmax ∧ T.ymin ≤ p.y ∧ p.y ≤ T.ymax := by
  simp [inRectB, and_assoc]

lemma adjustEps_ne_zero (v : ℚ) : adjustEps v ≠ 0 := by
  unfold adjustEps
  split_ifs with h1 h2
  · norm_num [contourEps]
  · norm_num [contourEps]
  · intro h
    rw [h] at h1
    simp only [abs_zero] at h1
    exact h1 (by norm_num [contourEps])

lemma gridVal_ne_zero (T : Transform) (field : ScalarField) (cols rows j i : ℕ) :
    gridVal T field cols rows j i ≠ 0 := adjustEps_ne_zero _

lemma lerp_t_bounds (v1 v2 : ℚ) (h : oppSign v1 v2) :
    0 ≤ v1 / (v1 - v2) ∧ v1 / (v1 - v2) ≤ 1 := by
  rcases h with ⟨h1, h2⟩ | ⟨h1, h2⟩
  · have hd : 0 < v1 - v2 := by linarith
    exact ⟨div_nonneg h1.le hd.le, (div_le_one hd).2 (by linarith)⟩
  · have hd : 0 < v2 - v1 := by linarith
    have he : -v1 / -(v1 - v2) = v1 / (v1 - v2) := neg_div_neg_eq v1 (v1 - v2)
    rw [← he, neg_sub]
    exact ⟨div_nonneg (by linarith) hd.le, (div_le_one hd).2 (by linarith)⟩

lemma lerpZero_vert_eq (x ya yb va vb : ℚ) :
    lerpZero x ya va x yb vb = ⟨x, ya + va / (va - vb) * (yb - ya)⟩ := by
  unfold lerpZero
  simp

lemma lerpZero_horiz_eq (xa xb y va vb : ℚ) :
    lerpZero xa y va xb y vb = ⟨xa + va / (va - vb) * (xb - xa), y⟩ := by
  unfold lerpZero
  simp

lemma lerpZero_in_rect_vert (T : Transform) (x ya yb va vb : ℚ)
    (hop : oppSign va vb) (h1 : T.xmin ≤ x) (h2 : x ≤ T.xmax)
    (h3 : T.ymin ≤ ya) (h4 : ya ≤ yb) (h5 : yb ≤ T.ymax) :
    inRectB T (lerpZero x ya va x yb vb) = true := by
  obtain ⟨ht0, ht1⟩ := lerp_t_bounds va vb hop
  rw [lerpZero_vert_eq, inRectB_eq_true]
  refine ⟨h1, h2, ?_, ?_⟩
  · have := mul_nonneg ht0 (sub_nonneg.mpr h4)
    show T.ymin ≤ ya + va / (va - vb) * (yb - ya)
    linarith
  · have := mul_nonneg (sub_nonneg.mpr ht1) (sub_nonneg.mpr h4)
    show ya + va / (va - vb) * (yb - ya) ≤ T.ymax
    nlinarith

lemma lerpZero_in_rect_horiz (T : Transform) (xa xb y va vb : ℚ)
    (hop : oppSign va vb) (h1 : T.xmin ≤ xa) (h2 : xa ≤ xb) (h3 : xb ≤ T.xmax)
    (h4 : T.ymin ≤ y) (h5 : y ≤ T.ymax) :
    inRectB T (lerpZero xa y va xb y vb) = true := by
  obtain ⟨ht0, ht1⟩ := lerp_t_bounds va vb hop
  rw [lerpZero_horiz_eq, inRectB_eq_true]
  refine ⟨?_, ?_, h4, h5⟩
  · have := mul_nonneg ht0 (sub_nonneg.mpr h2)
    show T.xmin ≤ xa + va / (va - vb) * (xb - xa)
    linarith
  · have := mul_nonneg (sub_nonneg.mpr ht1) (sub_nonneg.mpr h2)
    show xa + va / (va - vb) * (xb - xa) ≤ T.xmax
    nlinarith

lemma codeEmit_in_rect (T : Transform) (x0 x1 y0 y1 v00 v10 v11 v01 : ℚ)
    (hx0l : T.xmin ≤ x0) (hx01 : x0 ≤ x1) (hx1r : x1 ≤ T.xmax)
    (hy0l : T.ymin ≤ y0) (hy01 : y0 ≤ y1) (hy1r : y1 ≤ T.ymax)
    (hne00 : v00 ≠ 0) (hne10 : v10 ≠ 0) (hne11 : v11 ≠ 0) (hne01 : v01 ≠ 0) :
    ∀ s ∈ codeEmit (edgePoint x0 x1 y0 y1 v00 v10 v11 v01)
      (cellCode v00 v10 v11 v01), segInRectB T s = true := by
  intro s hs
  set e : ℕ → Vec2 := edgePoint x0 x1 y0 y1 v00 v10 v11 v01 with he_def
  have hx0r : x0 ≤ T.xmax := le_trans hx01 hx1r
  have hx1l : T.xmin ≤ x1 := le_trans hx0l hx01
  have hy0r : y0 ≤ T.ymax := le_trans hy01 hy1r
  have hy1l : T.ymin ≤ y1 := le_trans hy0l hy01
  have he0 : oppSign v00 v01 → inRectB T (e 0) = true := fun hop =>
    lerpZero_in_rect_vert T x0 y0 y1 v00 v01 hop hx0l hx0r hy0l hy01 hy1r
  have he1 : oppSign v00 v10 → inRectB T (e 1) = true := fun hop =>
    lerpZero_in_rect_horiz T x0 x1 y0 v00 v10 hop hx0l hx01 hx1r hy0l hy0r
  have he2 : oppSign v10 v11 → inRectB T (e 2) = true := fun hop =>
    lerpZero_in_rect_vert T x1 y0 y1 v10 v11 hop hx1l hx1r hy0l hy01 hy1r
  have he3 : oppSign v01 v11 → inRectB T (e 3) = true := fun hop =>
    lerpZero_in_rect_horiz T x0 x1 y1 v01 v11 hop hx0l hx01 hx1r hy1l hy1r
  rcases lt_or_gt_of_ne hne00 with h00 | h00 <;>
    rcases lt_or_gt_of_ne hne10 with h10 | h10 <;>
    rcases lt_or_gt_of_ne hne11 with h11 | h11 <;>
    rcases lt_or_gt_of_ne hne01 with h01 | h01
  · -- code 0: nothing emitted
    have hc : cellCode v00 v10 v11 v01 = 0 := by
      unfold cellCode
      rw [if_neg (not_lt.mpr h00.le), if_neg (not_lt.mpr h10.le),
        if_neg (not_lt.mpr h11.le), if_neg (not_lt.mpr h01.le)]
    rw [hc] at hs
    simp only [codeEmit, List.not_mem_nil] at hs
  · -- code 8: segment (e0, e3)
    have hc : cellCode v00 v10 v11 v01 = 8 := by
      unfold cellCode
      rw [if_neg (not_lt.mpr h00.le), if_neg (not_lt.mpr h10.le),
        if_neg (not_lt.mpr h11.le), if_pos h01]
    rw [hc] at hs
    replace hs : s ∈ [Seg.mk (e 0) (e 3)] := hs
    simp only [List.mem_singleton] at hs
    subst hs
    simp only [segInRectB, Bool.and_eq_true]
    exact ⟨he0 (Or.inr ⟨h00, h01⟩), he3 (Or.inl ⟨h01, h11⟩)⟩
  · -- code 4: segment (e2, e3)
    have hc : cellCode v00 v10 v11 v01 = 4 := by
      unfold cellCode
      rw [if_neg (not_lt.mpr h00.le), if_neg (not_lt.mpr h10.le),
        if_pos h11, if_neg (not_lt.mpr h01.le)]
    rw [hc] at hs
    replace hs : s ∈ [Seg.mk (e 2) (e 3)] := hs
    simp only [List.mem_singleton] at hs
    subst hs
    simp only [segInRectB, Bool.and_eq_true]
    exact ⟨he2 (Or.inr ⟨h10, h11⟩), he3 (Or.inr ⟨h01, h11⟩)⟩
  · -- code 12: segment (e0, e2)
    have hc : cellCode v00 v10 v11 v01 = 12 := by
      unfold cellCode
      rw [if_neg (not_lt.mpr h00.le), if_neg (not_lt.mpr h10.le),
        if_pos h11, if_pos h01]
    rw [hc] at hs
    replace hs : s ∈ [Seg.mk (e 0) (e 2)] := hs
    simp only [List.mem_singleton] at hs
    subst hs
    simp only [segInRectB, Bool.and_eq_true]
    exact ⟨he0 (Or.inr ⟨h00, h01⟩), he2 (Or.inr ⟨h10, h11⟩)⟩
  · -- code 2: segment (e1, e2)
    have hc : cellCode v00 v10 v11 v01 = 2 := by
      unfold cellCode
      rw [if_neg (not_lt.mpr h00.le), if_pos h10,
        if_neg (not_lt.mpr h11.le), if_neg (not_lt.mpr h01.le)]
    rw [hc] at hs
    replace hs : s ∈ [Seg.mk (e 1) (e 2)] := hs
    simp only [List.mem_singleton] at hs
    subst hs
    simp only [segInRectB, Bool.and_eq_true]
    exact ⟨he1 (Or.inr ⟨h00, h10⟩), he2 (Or.inl ⟨h10, h11⟩)⟩
  · -- code 10: segments (e0, e2) and (e1, e3)
    have hc : cellCode v00 v10 v11 v01 = 10 := by
      unfold cellCode
      rw [if_neg (not_lt.mpr h00.le), if_pos h10,
        if_neg (not_lt.mpr h11.le), if_pos h01]
    rw [hc] at hs
    replace hs : s ∈ [Seg.mk (e 0) (e 2), Seg.mk (e 1) (e 3)] := hs
    simp only [List.mem_cons, List.mem_singleton, List.not_mem_nil, or_false] at hs
    rcases hs with rfl | rfl
    · simp only [segInRectB, Bool.and_eq_true]
      exact ⟨he0 (Or.inr ⟨h00, h01⟩), he2 (Or.inl ⟨h10, h11⟩)⟩
    · simp only [segInRectB, Bool.and_eq_true]
      exact ⟨he1 (Or.inr ⟨h00, h10⟩), he3 (Or.inl ⟨h01, h11⟩)⟩
  · -- code 6: segment (e1, e3)
    have hc : cellCode v00 v10 v11 v01 = 6 := by
      unfold cellCode
      rw [if_neg (not_lt.mpr h00.le), if_pos h10, if_pos h11,
        if_neg (not_lt.mpr h01.le)]
    rw [hc] at hs
    replace hs : s ∈ [Seg.mk (e 1) (e 3)] := hs
    simp only [List.mem_singleton] at hs
    subst hs
    simp only [segInRectB, Bool.and_eq_true]
    exact ⟨he1 (Or.inr ⟨h00, h10⟩), he3 (Or.inr ⟨h01, h11⟩)⟩
  · -- code 14: segment (e0, e1)
    have hc : cellCode v00 v10 v11 v01 = 14 := by
      unfold cellCode
      rw [if_neg (not_lt.mpr h00.le), if_pos h10, if_pos h11, if_pos h01]
    rw [hc] at hs
    replace hs : s ∈ [Seg.mk (e 0) (e 1)] := hs
    simp only [List.mem_singleton] at hs
    subst hs
    simp only [segInRectB, Bool.and_eq_true]
    exact ⟨he0 (Or.inr ⟨h00, h01⟩), he1 (Or.inr ⟨h00, h10⟩)⟩
  · -- code 1: segment (e0, e1)
    have hc : cellCode v00 v10 v11 v01 = 1 := by
      unfold cellCode
      rw [if_pos h00, if_neg (not_lt.mpr h10.le),
        if_neg (not_lt.mpr h11.le), if_neg (not_lt.mpr h01.le)]
    rw [hc] at hs
    replace hs : s ∈ [Seg.mk (e 0) (e 1)] := hs
    simp only [List.mem_singleton] at hs
    subst hs
    simp only [segInRectB, Bool.and_eq_true]
    exact ⟨he0 (Or.inl ⟨h00, h01⟩), he1 (Or.inl ⟨h00, h10⟩)⟩
  · -- code 9: segment (e1, e3)
    have hc : cellCode v00 v10 v11 v01 = 9 := by
      unfold cellCode
      rw [if_pos h00, if_neg (not_lt.mpr h10.le),
        if_neg (not_lt.mpr h11.le), if_pos h01]
    rw [hc] at hs
    replace hs : s ∈ [Seg.mk (e 1) (e 3)] := hs
    simp only [List.mem_singleton] at hs
    subst hs
    simp only [segInRectB, Bool.and_eq_true]
    exact ⟨he1 (Or.inl ⟨h00, h10⟩), he3 (Or.inl ⟨h01, h11⟩)⟩
  · -- code 5: segments (e0, e1) and (e2, e3)
    have hc : cellCode v00 v10 v11 v01 = 5 := by
      unfold cellCode
      rw [if_pos h00, if_neg (not_lt.mpr h10.le), if_pos h11,
        if_neg (not_lt.mpr h01.le)]
    rw [hc] at hs
    replace hs : s ∈ [Seg.mk (e 0) (e 1), Seg.mk (e 2) (e 3)] := hs
    simp only [List.mem_cons, List.mem_singleton, List.not_mem_nil, or_false] at hs
    rcases hs with rfl | rfl
    · simp only [segInRectB, Bool.and_eq_true]
      exact ⟨he0 (Or.inl ⟨h00, h01⟩), he1 (Or.inl ⟨h00, h10⟩)⟩
    · simp only [segInRectB, Bool.and_eq_true]
      exact ⟨he2 (Or.inr ⟨h10, h11⟩), he3 (Or.inr ⟨h01, h11⟩)⟩
  · -- code 13: segment (e1, e2)
    have hc : cellCode v00 v10 v11 v01 = 13 := by
      unfold cellCode
      rw [if_pos h00, if_neg (not_lt.mpr h10.le), if_pos h11, if_pos h01]
    rw [hc] at hs
    replace hs : s ∈ [Seg.mk (e 1) (e 2)] := hs
    simp only [List.mem_singleton] at hs
    subst hs
    simp only [segInRectB, Bool.and_eq_true]
    exact ⟨he1 (Or.inl ⟨h00, h10⟩), he2 (Or.inr ⟨h10, h11⟩)⟩
  · -- code 3: segment (e0, e2)
    have hc : cellCode v00 v10 v11 v01 = 3 := by
      unfold cellCode
      rw [if_pos h00, if_pos h10, if_neg (not_lt.mpr h11.le),
        if_neg (not_lt.mpr h01.le)]
    rw [hc] at hs
    replace hs : s ∈ [Seg.mk (e 0) (e 2)] := hs
    simp only [List.mem_singleton] at hs
    subst hs
    simp only [segInRectB, Bool.and_eq_true]
    exact ⟨he0 (Or.inl ⟨h00, h01⟩), he2 (Or.inl ⟨h10, h11⟩)⟩
  · -- code 11: segment (e2, e3)
    have hc : cellCode v00 v10 v11 v01 = 11 := by
      unfold cellCode
      rw [if_pos h00, if_pos h10, if_neg (not_lt.mpr h11.le), if_pos h01]
    rw [hc] at hs
    replace hs : s ∈ [Seg.mk (e 2) (e 3)] := hs
    simp only [List.mem_singleton] at hs
    subst hs
    simp only [segInRectB, Bool.and_eq_true]
    exact ⟨he2 (Or.inl ⟨h10, h11⟩), he3 (Or.inl ⟨h01, h11⟩)⟩
  · -- code 7: segment (e0, e3)
    have hc : cellCode v00 v10 v11 v01 = 7 := by
      unfold cellCode
      rw [if_pos h00, if_pos h10, if_pos h11, if_neg (not_lt.mpr h01.le)]
    rw [hc] at hs
    replace hs : s ∈ [Seg.mk (e 0) (e 3)] := hs
    simp only [List.mem_singleton] at hs
    subst hs
    simp only [segInRectB, Bool.and_eq_true]
    exact ⟨he0 (Or.inl ⟨h00, h01⟩), he3 (Or.inr ⟨h01, h11⟩)⟩
  · -- code 15: nothing emitted
    have hc : cellCode v00 v10 v11 v01 = 15 := by
      unfold cellCode
      rw [if_pos h00, if_pos h10, if_pos h11, if_pos h01]
    rw [hc] at hs
    simp only [codeEmit, List.not_mem_nil] at hs

/-- Unfolding of `cellSegments` into its constituent calls. -/
lemma cellSegments_eq (T : Transform) (field : ScalarField) (cols rows j i : ℕ) :
    cellSegments T field cols rows j i =
      codeEmit
        (edgePoint (T.xmin + i * ((T.xmax - T.xmin) / cols))
          (T.xmin + i * ((T.xmax - T.xmin) / cols) + (T.xmax - T.xmin) / cols)
          (T.ymin + j * ((T.ymax - T.ymin) / rows))
          (T.ymin + j * ((T.ymax - T.ymin) / rows) + (T.ymax - T.ymin) / rows)
          (gridVal T field cols rows j i) (gridVal T field cols rows j (i + 1))
          (gridVal T field cols rows (j + 1) (i + 1))
          (gridVal T field cols rows (j + 1) i))
        (cellCode (gridVal T field cols rows j i)
          (gridVal T field cols rows j (i + 1))
          (gridVal T field cols rows (j + 1) (i + 1))
          (gridVal T field cols rows (j + 1) i)) := rfl

lemma cellSegments_in_rect (T : Transform) (field : ScalarField)
    (cols rows j i : ℕ) (hx : T.xmin < T.xmax) (hy : T.ymin < T.ymax)
    (hi : i < cols) (hj : j < rows) :
    ∀ s ∈ cellSegments T field cols rows j i, segInRectB T s = true := by
  intro s hs
  rw [cellSegments_eq] at hs
  have hcolsQ : (0 : ℚ) < cols := by
    exact_mod_cast Nat.lt_of_le_of_lt (Nat.zero_le i) hi
  have hrowsQ : (0 : ℚ) < rows := by
    exact_mod_cast Nat.lt_of_le_of_lt (Nat.zero_le j) hj
  have hdx : 0 < (T.xmax - T.xmin) / cols := div_pos (by linarith) hcolsQ
  have hdy : 0 < (T.ymax - T.ymin) / rows := div_pos (by linarith) hrowsQ
  have hiQ : (i : ℚ) + 1 ≤ cols := by exact_mod_cast Nat.succ_le_of_lt hi
  have hjQ : (j : ℚ) + 1 ≤ rows := by exact_mod_cast Nat.succ_le_of_lt hj
  have hcd : (cols : ℚ) * ((T.xmax - T.xmin) / cols) = T.xmax - T.xmin := by
    field_simp
  have hrd : (rows : ℚ) * ((T.ymax - T.ymin) / rows) = T.ymax - T.ymin := by
    field_simp
  refine codeEmit_in_rect T _ _ _ _ _ _ _ _ ?_ ?_ ?_ ?_ ?_ ?_
    (gridVal_ne_zero T field cols rows j i)
    (gridVal_ne_zero T field cols rows j (i + 1))
    (gridVal_ne_zero T field cols rows (j + 1) (i + 1))
    (gridVal_ne_zero T field cols rows (j + 1) i) s hs
  · have : 0 ≤ (i : ℚ) * ((T.xmax - T.xmin) / cols) :=
      mul_nonneg (Nat.cast_nonneg i) hdx.le
    linarith
  · linarith
  · have hmul : ((i : ℚ) + 1) * ((T.xmax - T.xmin) / cols) ≤
        cols * ((T.xmax - T.xmin) / cols) := by nlinarith
    nlinarith
  · have : 0 ≤ (j : ℚ) * ((T.ymax - T.ymin) / rows) :=
      mul_nonneg (Nat.cast_nonneg j) hdy.le
    linarith
  · linarith
  · have hmul : ((j : ℚ) + 1) * ((T.ymax - T.ymin) / rows) ≤
        rows * ((T.ymax - T.ymin) / rows) := by nlinarith
    nlinarith

/-- The rational special case of bounds containment: over a `ℚ`-valued field
(i.e. when every sample is finite), every endpoint of every extracted segment
lies within the sampled rectangle. The claim-level statement is
`contour_points_in_rect_finite` below, over JavaScript-number-valued
fields. -/
lemma contourQ_all_in_rect (T : Transform) (field : ScalarField)
    (cols rows : ℕ) (hx : T.xmin < T.xmax) (hy : T.ymin < T.ymax) :
    (zeroContourSegments T field cols rows).all (segInRectB T) = true := by
  rw [List.all_eq_true]
  intro s hs
  unfold zeroContourSegments at hs
  rw [List.mem_flatMap] at hs
  obtain ⟨j, hj, hs⟩ := hs
  rw [List.mem_flatMap] at hs
  obtain ⟨i, hi, hs⟩ := hs
  rw [List.mem_range] at hj hi
  exact cellSegments_in_rect T field cols rows j i hx hy hi hj s hs

/-! ### Newton refinement (`newtonPolish`) -/

/-- The parameter record threaded through a system's field functions. -/
abbrev Params : Type := String → ℚ

/-- A dynamical system over exact rational arithmetic (`interface System`).
The RK4 integrator uses the `JsNum`-valued `System` below instead, because its
claims are about non-finite values. -/
structure SystemR where
  f : ℚ → ℚ → Params → ℚ
  g : ℚ → ℚ → Params → ℚ
  params : Params

/-- The near-singular Jacobian threshold `1e-20`. -/
def detEps : ℚ := 1 / 10 ^ 20

/-- The early-stop correction threshold `1e-12`. -/
def stepEps : ℚ := 1 / 10 ^ 12

/-- The body of `newtonPolish`'s `for (let it = 0; it < 3; it++)` loop,
with the iteration count as fuel; `Math.hypot(sx, sy) < 1e-12` is modelled
as `sx^2 + sy^2 < (1e-12)^2`. -/
def newtonGo (sys : SystemR) (hx hy : ℚ) : ℕ → ℚ → ℚ → ℚ × ℚ
  | 0, x, y => (x, y)
  | n + 1, x, y =>
    let fx := sys.f x y sys.params
    let gy := sys.g x y sys.params
    let f_xph := sys.f (x + hx) y sys.params
    let f_xmh := sys.f (x - hx) y sys.params
    let f_yph := sys.f x (y + hy) sys.params
    let f_ymh := sys.f x (y - hy) sys.params
    let g_xph := sys.g (x + hx) y sys.params
    let g_xmh := sys.g (x - hx) y sys.params
    let g_yph := sys.g x (y + hy) sys.params
    let g_ymh := sys.g x (y - hy) sys.params
    let a := (f_xph - f_xmh) / (2 * hx)
    let b := (f_yph - f_ymh) / (2 * hy)
    let c := (g_xph - g_xmh) / (2 * hx)
    let d := (g_yph - g_ymh) / (2 * hy)
    let det := a * d - b * c
    if |det| < detEps then (x, y)
    else
      let sx := (-fx * d + b * gy) / det
      let sy := (-a * gy + fx * c) / det
      let x' := x - sx
      let y' := y - sy
      if sx ^ 2 + sy ^ 2 < stepEps ^ 2 then (x', y') else newtonGo sys hx hy n x' y'

/-- `newtonPolish(sys, p, step)`: up to 3 damped-free Newton iterations. -/
def newtonPolish (sys : SystemR) (p : Vec2) (step : ℚ) : Vec2 :=
  let q := newtonGo sys step step 3 p.x p.y
  ⟨q.1, q.2⟩

/-- The linear system `f(x,y) = x`, `g(x,y) = y`, whose unique zero is the
origin and whose Jacobian is the identity; a genuine Newton update from any
point reaches the origin in one step. -/
def idSys : SystemR :=
  { f := fun x _ _ => x, g := fun _ y _ => y, params := fun _ => 0 }

/-- C2 (code evaluated at the failing input): for `f = x`, `g = y` the
Jacobian is the identity and a Newton update from `(1,1)` lands exactly on
the root `(0,0)`; the code instead doubles the iterate each round and returns
`(8,8)` after its 3 iterations, because it subtracts the solution of
`J·s = -F` (which is the Newton increment) instead of adding it. -/
theorem newtonPolish_runaway :
    newtonPolish idSys ⟨1, 1⟩ (1 / 2) = ⟨8, 8⟩ ∧
      idSys.f 1 1 idSys.params = 1 ∧
      idSys.f 8 8 idSys.params = 8 := by
  refine ⟨?_, rfl, rfl⟩
  norm_num [newtonPolish, newtonGo, idSys, detEps, stepEps]

/-! ### The RK4 integrator over the JavaScript number line

`JsNum` extends `ℚ` with `nan` and signed infinities so that the integrator's
`!isFinite(x)` break condition is meaningful (float overflow and signed zero
are not modelled; non-finite values enter through the user-supplied field
functions and propagate through arithmetic as in JavaScript). -/

inductive JsNum where
  | nan : JsNum
  | inf : Bool → JsNum
  | fin : ℚ → JsNum
deriving DecidableEq, Repr

/-- `Number.isFinite` / global `isFinite` on an already-numeric value. -/
def JsNum.isFinite : JsNum → Bool
  | .fin _ => true
  | _ => false

def jsAdd : JsNum → JsNum → JsNum
  | .nan, _ => .nan
  | _, .nan => .nan
  | .inf s, .inf t => if s = t then .inf s else .nan
  | .inf s, .fin _ => .inf s
  | .fin _, .inf t => .inf t
  | .fin a, .fin b => .fin (a + b)

def jsNeg : JsNum → JsNum
  | .nan => .nan
  | .inf s => .inf (!s)
  | .fin a => .fin (-a)

def jsMul : JsNum → JsNum → JsNum
  | .nan, _ => .nan
  | _, .nan => .nan
  | .inf s, .inf t => .inf (s == t)
  | .inf s, .fin b => if b = 0 then .nan else .inf (s == decide (0 < b))
  | .fin a, .inf t => if a = 0 then .nan else .inf (decide (0 < a) == t)
  | .fin a, .fin b => .fin (a * b)

def jsDiv : JsNum → JsNum → JsNum
  | .nan, _ => .nan
  | _, .nan => .nan
  | .inf _, .inf _ => .nan
  | .inf s, .fin b => if b = 0 then .inf s else .inf (s == decide (0 < b))
  | .fin _, .inf _ => .fin 0
  | .fin a, .fin b =>
    if b = 0 then (if a = 0 then .nan else .inf (decide (0 < a))) else .fin (a / b)

/-- JavaScript `<`: any comparison involving NaN is false. -/
def jsLt : JsNum → JsNum → Bool
  | .nan, _ => false
  | _, .nan => false
  | .inf s, .inf t => !s && t
  | .inf s, .fin _ => !s
  | .fin _, .inf t => t
  | .fin a, .fin b => decide (a < b)

/-- A point whose coordinates live on the JavaScript number line. -/
structure JsVec2 where
  x : JsNum
  y : JsNum
deriving DecidableEq, Repr

/-- The `worldBounds` record passed to `rk4`; actual rectangles are finite. -/
structure Bounds where
  xmin : ℚ
  xmax : ℚ
  ymin : ℚ
  ymax : ℚ
deriving DecidableEq, Repr

/-- The parameter record of a JavaScript-numbered system. -/
abbrev JsParams : Type := String → JsNum

/-- `interface System` as consumed by the integrator. -/
structure System where
  f : JsNum → JsNum → JsParams → JsNum
  g : JsNum → JsNum → JsParams → JsNum
  params : JsParams

/-- The break condition of `rk4`'s loop:
`!isFinite(x) || !isFinite(y) || x < xmin || x > xmax || y < ymin || y > ymax`. -/
def outOfBounds (b : Bounds) (x y : JsNum) : Bool :=
  !x.isFinite || !y.isFinite || jsLt x (.fin b.xmin) || jsLt (.fin b.xmax) x ||
    jsLt y (.fin b.ymin) || jsLt (.fin b.ymax) y

/-- A sample that is finite and inside `worldBounds` (inclusive). -/
def goodPoint (b : Bounds) (p : JsVec2) : Bool := !(outOfBounds b p.x p.y)

/-- One RK4 step (the loop body of `rk4` up to the break test), with
JavaScript's left-associated arithmetic. -/
def rk4Step (sys : System) (dt x y : JsNum) : JsNum × JsNum :=
  let k1x := sys.f x y sys.params
  let k1y := sys.g x y sys.params
  let x2 := jsAdd x (jsMul (jsMul (.fin (1 / 2)) dt) k1x)
  let y2 := jsAdd y (jsMul (jsMul (.fin (1 / 2)) dt) k1y)
  let k2x := sys.f x2 y2 sys.params
  let k2y := sys.g x2 y2 sys.params
  let x3 := jsAdd x (jsMul (jsMul (.fin (1 / 2)) dt) k2x)
  let y3 := jsAdd y (jsMul (jsMul (.fin (1 / 2)) dt) k2y)
  let k3x := sys.f x3 y3 sys.params
  let k3y := sys.g x3 y3 sys.params
  let x4 := jsAdd x (jsMul dt k3x)
  let y4 := jsAdd y (jsMul dt k3y)
  let k4x := sys.f x4 y4 sys.params
  let k4y := sys.g x4 y4 sys.params
  let sx := jsAdd (jsAdd (jsAdd k1x (jsMul (.fin 2) k2x)) (jsMul (.fin 2) k3x)) k4x
  let sy := jsAdd (jsAdd (jsAdd k1y (jsMul (.fin 2) k2y)) (jsMul (.fin 2) k3y)) k4y
  (jsAdd x (jsMul (jsDiv dt (.fin 6)) sx), jsAdd y (jsMul (jsDiv dt (.fin 6)) sy))

/-- The iteration of `rk4`'s `for` loop, fuel = remaining steps. -/
def rk4Go (sys : System) (dt : JsNum) (b : Bounds) :
    ℕ → JsNum → JsNum → List JsVec2 → List JsVec2
  | 0, _, _, pts => pts
  | n + 1, x, y, pts =>
    let s := rk4Step sys dt x y
    if outOfBounds b s.1 s.2 then pts
    else rk4Go sys dt b n s.1 s.2 (pts ++ [⟨s.1, s.2⟩])

/-- `rk4(sys, p0, dt, steps, worldBounds)`. -/
def rk4 (sys : System) (p0 : JsVec2) (dt : JsNum) (steps : ℕ) (b : Bounds) :
    List JsVec2 :=
  rk4Go sys dt b steps p0.x p0.y [p0]

/-- `integrateBidirectional(sys, seed, dt, steps, bounds)` as the pair
`(forward, backward)`. -/
def integrateBidirectional (sys : System) (seed : JsVec2) (dt : JsNum)
    (steps : ℕ) (b : Bounds) : List JsVec2 × List JsVec2 :=
  (rk4 sys seed dt steps b, rk4 sys seed (jsNeg dt) steps b)

lemma rk4Go_all_good (sys : System) (dt : JsNum) (b : Bounds) :
    ∀ (n : ℕ) (x y : JsNum) (pts : List JsVec2),
      pts.all (goodPoint b) = true →
      (rk4Go sys dt b n x y pts).all (goodPoint b) = true := by
  intro n
  induction n with
  | zero => intro x y pts h; simpa [rk4Go] using h
  | succ n ih =>
    intro x y pts h
    by_cases hc :
        outOfBounds b (rk4Step sys dt x y).1 (rk4Step sys dt x y).2 = true
    · simpa [rk4Go, hc] using h
    · have hc' :
          outOfBounds b (rk4Step sys dt x y).1 (rk4Step sys dt x y).2 = false :=
        Bool.eq_false_iff.mpr hc
      simp only [rk4Go, hc', Bool.false_eq_true, if_false]
      apply ih
      rw [List.all_append, h]
      simp [goodPoint, hc']

/-- C1 (amended): provided the start point is itself finite and within
`worldBounds`, every point of the returned sequence is finite and lies within
`worldBounds` (inclusive) — each freshly integrated sample is pushed only
after passing the finiteness/bounds check, and the sequence stops at the
first failing sample without including it. -/
theorem rk4_bounds_inv (sys : System) (p0 : JsVec2) (dt : JsNum) (steps : ℕ)
    (b : Bounds) (h : outOfBounds b p0.x p0.y = false) :
    (rk4 sys p0 dt steps b).all (goodPoint b) = true := by
  apply rk4Go_all_good
  simp [goodPoint, h]

/-- The constant-zero vector field. -/
def zeroSys : System :=
  { f := fun _ _ _ => .fin 0, g := fun _ _ _ => .fin 0, params := fun _ => .fin 0 }

/-- The unit square world bounds. -/
def unitB : Bounds := { xmin := 0, xmax := 1, ymin := 0, ymax := 1 }

/-- C1 (counterexample to the claim as stated): with the constant-zero field,
start point `(2, 0)` and world bounds `[0,1]×[0,1]`, the returned sequence is
just `[(2, 0)]`, which contains a point outside `worldBounds` — `rk4` never
validates `p0`, so the universally quantified bounds-containment claim is
false. -/
theorem rk4_bounds_cex :
    (rk4 zeroSys ⟨.fin 2, .fin 0⟩ (.fin 1) 1 unitB).all (goodPoint unitB) = false ∧
      rk4 zeroSys ⟨.fin 2, .fin 0⟩ (.fin 1) 1 unitB = [⟨.fin 2, .fin 0⟩] := by
  constructor <;>
    norm_num [rk4, rk4Go, rk4Step, outOfBounds, goodPoint, zeroSys, unitB,
      jsAdd, jsMul, jsDiv, jsLt, JsNum.isFinite]

/-- Witness for `rk4_bounds_inv` at a concrete in-bounds start point. -/
theorem rk4_bounds_inv_witness :
    outOfBounds unitB (JsNum.fin 0) (JsNum.fin 0) = false ∧
      (rk4 zeroSys ⟨.fin 0, .fin 0⟩ (.fin 1) 2 unitB).all (goodPoint unitB) = true := by
  have h : outOfBounds unitB (JsNum.fin 0) (JsNum.fin 0) = false := by
    norm_num [outOfBounds, jsLt, JsNum.isFinite, unitB]
  exact ⟨h, rk4_bounds_inv zeroSys ⟨.fin 0, .fin 0⟩ (.fin 1) 2 unitB h⟩

lemma rk4Go_head (sys : System) (dt : JsNum) (b : Bounds) :
    ∀ (n : ℕ) (x y : JsNum) (pts : List JsVec2), pts ≠ [] →
      (rk4Go sys dt b n x y pts).head? = pts.head? := by
  intro n
  induction n with
  | zero => intro x y pts _; rfl
  | succ n ih =>
    intro x y pts hne
    by_cases hc :
        outOfBounds b (rk4Step sys dt x y).1 (rk4Step sys dt x y).2 = true
    · simp [rk4Go, hc]
    · have hc' :
          outOfBounds b (rk4Step sys dt x y).1 (rk4Step sys dt x y).2 = false :=
        Bool.eq_false_iff.mpr hc
      simp only [rk4Go, hc', Bool.false_eq_true, if_false]
      rw [ih _ _ _ (by simp)]
      cases pts with
      | nil => exact absurd rfl hne
      | cons p rest => rfl

lemma rk4Go_length (sys : System) (dt : JsNum) (b : Bounds) :
    ∀ (n : ℕ) (x y : JsNum) (pts : List JsVec2),
      (rk4Go sys dt b n x y pts).length ≤ pts.length + n := by
  intro n
  induction n with
  | zero => intro x y pts; simp [rk4Go]
  | succ n ih =>
    intro x y pts
    by_cases hc :
        outOfBounds b (rk4Step sys dt x y).1 (rk4Step sys dt x y).2 = true
    · simp [rk4Go, hc]
    · have hc' :
          outOfBounds b (rk4Step sys dt x y).1 (rk4Step sys dt x y).2 = false :=
        Bool.eq_false_iff.mpr hc
      simp only [rk4Go, hc', Bool.false_eq_true, if_false]
      calc (rk4Go sys dt b n (rk4Step sys dt x y).1 (rk4Step sys dt x y).2
              (pts ++ [(⟨(rk4Step sys dt x y).1, (rk4Step sys dt x y).2⟩ : JsVec2)])).length
          ≤ (pts ++ [(⟨(rk4Step sys dt x y).1, (rk4Step sys dt x y).2⟩ : JsVec2)]).length + n :=
            ih _ _ _
        _ = pts.length + (n + 1) := by simp; omega

/-- A constant field pulling the state left by `9/2` per unit step, used to
demonstrate that integration proceeds from an out-of-bounds start point. -/
def escSys : System :=
  { f := fun _ _ _ => .fin (-(9 / 2)), g := fun _ _ _ => .fin 0
    params := fun _ => .fin 0 }

/-- C9: `rk4` never validates its start point: the result always starts with
`p0` (so both sequences of `integrateBidirectional` begin with the seed) and
has at most `steps + 1` points; the final two conjuncts exhibit a start point
outside the world bounds from which integration still proceeds (the next
sample is accepted rather than the loop terminating immediately). -/
theorem rk4_start_unvalidated (sys : System) (p0 : JsVec2) (dt : JsNum)
    (steps : ℕ) (b : Bounds) :
    (rk4 sys p0 dt steps b).head? = some p0 ∧
      (rk4 sys p0 dt steps b).length ≤ steps + 1 ∧
      (integrateBidirectional sys p0 dt steps b).1.head? = some p0 ∧
      (integrateBidirectional sys p0 dt steps b).2.head? = some p0 ∧
      outOfBounds unitB (JsNum.fin 5) (JsNum.fin 0) = true ∧
      (rk4 escSys ⟨.fin 5, .fin 0⟩ (.fin 1) 1 unitB).length = 2 := by
  refine ⟨rk4Go_head sys dt b steps p0.x p0.y [p0] (by simp), ?_,
    rk4Go_head sys dt b steps p0.x p0.y [p0] (by simp),
    rk4Go_head sys (jsNeg dt) b steps p0.x p0.y [p0] (by simp), ?_, ?_⟩
  · have h := rk4Go_length sys dt b steps p0.x p0.y [p0]
    simp only [List.length_singleton] at h
    show (rk4Go sys dt b steps p0.x p0.y [p0]).length ≤ steps + 1
    omega
  · norm_num [outOfBounds, jsLt, JsNum.isFinite, unitB]
  · norm_num [rk4, rk4Go, rk4Step, outOfBounds, goodPoint, escSys, unitB,
      jsAdd, jsMul, jsDiv, jsLt, JsNum.isFinite]

/-! ### Segment stitching (`stitchSegmentsToPolylines`)

The JS string key `round(x/0.5) + "_" + round(y/0.5)` is modelled as the
integer pair itself (the underscore encoding of two integers is injective).
The `Map` of endpoint keys to incident segment indices is an association
list with the same insertion and lookup order, and the `used` boolean array
is a `List Bool`. The chains additionally carry the list of segment indices
they consumed — the information the source tracks in `used` — so that
exactly-once consumption is a statement about the result. -/

/-- `Math.round`: round half toward positive infinity. -/
def jsRound (q : ℚ) : ℤ := ⌊q + 1 / 2⌋

/-- The endpoint quantization tolerance (`keyTol = 0.5`). -/
def keyTol : ℚ := 1 / 2

/-- The quantized adjacency key of an endpoint. -/
def segKey (p : Vec2) : ℤ × ℤ := (jsRound (p.x / keyTol), jsRound (p.y / keyTol))

/-- The adjacency map: association list from key to incident indices. -/
abbrev Adj : Type := List ((ℤ × ℤ) × List ℕ)

/-- `adj.get(k) || []`. -/
def adjGet : Adj → ℤ × ℤ → List ℕ
  | [], _ => []
  | (k', l) :: rest, k => if k' = k then l else adjGet rest k

/-- `if (!adj.has(k)) adj.set(k, []); adj.get(k).push(i)`. -/
def adjPush : Adj → ℤ × ℤ → ℕ → Adj
  | [], k, i => [(k, [i])]
  | (k', l) :: rest, k, i =>
    if k' = k then (k', l ++ [i]) :: rest else (k', l) :: adjPush rest k i

/-- The `segsScreen.forEach` loop that registers both endpoint keys of each
segment, `i` being the index of the head of the remaining list. -/
def buildAdjGo : ℕ → List Seg → Adj → Adj
  | _, [], adj => adj
  | i, s :: rest, adj =>
    buildAdjGo (i + 1) rest (adjPush (adjPush adj (segKey s.a) i) (segKey s.b) i)

def buildAdj (segs : List Seg) : Adj := buildAdjGo 0 segs []

/-- The `A` endpoint array (`A[i] = s.a`). -/
def segA (segs : List Seg) (i : ℕ) : Vec2 := (segs.getD i ⟨⟨0, 0⟩, ⟨0, 0⟩⟩).a

/-- The `B` endpoint array (`B[i] = s.b`). -/
def segB (segs : List Seg) (i : ℕ) : Vec2 := (segs.getD i ⟨⟨0, 0⟩, ⟨0, 0⟩⟩).b

/-- The inner `for (const idx of incident)` search: the first unused incident
segment whose matching endpoint has key `k`; returns it with its far
endpoint. -/
def findNext (segs : List Seg) (used : List Bool) (k : ℤ × ℤ) :
    List ℕ → Option (ℕ × Vec2)
  | [] => none
  | idx :: rest =>
    if used.getD idx false then findNext segs used k rest
    else if segKey (segA segs idx) = k then some (idx, segB segs idx)
    else if segKey (segB segs idx) = k then some (idx, segA segs idx)
    else findNext segs used k rest

/-- The right-extension `while (true)` loop. Each iteration consumes one
unused segment, so `segs.length` fuel is never exhausted before the loop's
natural end. Returns `(used, chain, consumed, right)`. -/
def extendR (segs : List Seg) (adj : Adj) :
    ℕ → List Bool → List Vec2 → List ℕ → Vec2 →
    List Bool × List Vec2 × List ℕ × Vec2
  | 0, used, chain, cons, right => (used, chain, cons, right)
  | fuel + 1, used, chain, cons, right =>
    match findNext segs used (segKey right) (adjGet adj (segKey right)) with
    | none => (used, chain, cons, right)
    | some (idx, next) =>
      extendR segs adj fuel (used.set idx true) (chain ++ [next])
        (cons ++ [idx]) next

/-- The symmetric left-extension loop (`chain.unshift(next)`). -/
def extendL (segs : List Seg) (adj : Adj) :
    ℕ → List Bool → List Vec2 → List ℕ → Vec2 →
    List Bool × List Vec2 × List ℕ × Vec2
  | 0, used, chain, cons, left => (used, chain, cons, left)
  | fuel + 1, used, chain, cons, left =>
    match findNext segs used (segKey left) (adjGet adj (segKey left)) with
    | none => (used, chain, cons, left)
    | some (idx, next) =>
      extendL segs adj fuel (used.set idx true) (next :: chain)
        (cons ++ [idx]) next

/-- The outer `for (let i = 0; ...)` loop over seed segments. -/
def stitchLoop (segs : List Seg) (adj : Adj) :
    List ℕ → List Bool → List (List Vec2 × List ℕ) →
    List Bool × List (List Vec2 × List ℕ)
  | [], used, acc => (used, acc)
  | i :: todo, used, acc =>
    if used.getD i false then stitchLoop segs adj todo used acc
    else
      match extendR segs adj segs.length (used.set i true)
          [segA segs i, segB segs i] [i] (segB segs i) with
      | (used2, chain2, cons2, _) =>
        match extendL segs adj segs.length used2 chain2 cons2 (segA segs i) with
        | (used3, chain3, cons3, _) =>
          stitchLoop segs adj todo used3 (acc ++ [(chain3, cons3)])

/-- The polylines together with the segment indices each one consumed. -/
def stitchChains (segs : List Seg) : List (List Vec2 × List ℕ) :=
  (stitchLoop segs (buildAdj segs) (List.range segs.length)
    (List.replicate segs.length false) []).2

/-- `stitchSegmentsToPolylines(segsScreen)`. -/
def stitchSegmentsToPolylines (segs : List Seg) : List (List Vec2) :=
  (stitchChains segs).map Prod.fst

lemma getD_set_self (l : List Bool) (i : ℕ) (b : Bool) (h : i < l.length) :
    (l.set i b).getD i false = b := by
  induction l generalizing i with
  | nil => simp at h
  | cons a t ih =>
    cases i with
    | zero => rfl
    | succ i => exact ih i (by simpa using h)

lemma getD_set_ne (l : List Bool) (i j : ℕ) (b : Bool) (h : i ≠ j) :
    (l.set i b).getD j false = l.getD j false := by
  induction l generalizing i j with
  | nil => rfl
  | cons a t ih =>
    cases i with
    | zero =>
      cases j with
      | zero => exact absurd rfl h
      | succ j => rfl
    | succ i =>
      cases j with
      | zero => rfl
      | succ j => exact ih i j (by omega)

lemma getD_replicate_false (n j : ℕ) :
    (List.replicate n false).getD j false = false := by
  induction n generalizing j with
  | zero => rfl
  | succ n ih =>
    cases j with
    | zero => rfl
    | succ j => exact ih j

lemma findNext_some (segs : List Seg) (used : List Bool) (k : ℤ × ℤ) :
    ∀ (inc : List ℕ) (idx : ℕ) (nxt : Vec2),
      findNext segs used k inc = some (idx, nxt) →
      idx ∈ inc ∧ used.getD idx false = false := by
  intro inc
  induction inc with
  | nil => intro idx nxt h; simp [findNext] at h
  | cons a rest ih =>
    intro idx nxt h
    rw [findNext] at h
    split_ifs at h with h1 h2 h3
    · obtain ⟨hm, hu⟩ := ih idx nxt h
      exact ⟨List.mem_cons_of_mem a hm, hu⟩
    · simp only [Option.some.injEq, Prod.mk.injEq] at h
      obtain ⟨rfl, -⟩ := h
      exact ⟨List.mem_cons_self a rest, Bool.eq_false_iff.mpr h1⟩
    · simp only [Option.some.injEq, Prod.mk.injEq] at h
      obtain ⟨rfl, -⟩ := h
      exact ⟨List.mem_cons_self a rest, Bool.eq_false_iff.mpr h1⟩
    · obtain ⟨hm, hu⟩ := ih idx nxt h
      exact ⟨List.mem_cons_of_mem a hm, hu⟩

lemma adjGet_adjPush_mem :
    ∀ (adj : Adj) (k k' : ℤ × ℤ) (i j : ℕ),
      j ∈ adjGet (adjPush adj k i) k' → j ∈ adjGet adj k' ∨ j = i := by
  intro adj
  induction adj with
  | nil =>
    intro k k' i j h
    rw [adjPush, adjGet] at h
    split_ifs at h with h1
    · simp at h
      exact Or.inr h
    · simp [adjGet] at h
  | cons e rest ih =>
    intro k k' i j h
    obtain ⟨k0, l0⟩ := e
    rw [adjPush] at h
    split_ifs at h with h1
    · rw [adjGet] at h ⊢
      split_ifs at h ⊢ with h2
      · rcases List.mem_append.mp h with hm | hm
        · exact Or.inl hm
        · simp at hm
          exact Or.inr hm
      · exact Or.inl h
    · rw [adjGet] at h ⊢
      split_ifs at h ⊢ with h2
      · exact Or.inl h
      · exact ih k k' i j h

lemma buildAdjGo_mem :
    ∀ (l : List Seg) (i0 : ℕ) (adj : Adj) (k : ℤ × ℤ) (j : ℕ),
      j ∈ adjGet (buildAdjGo i0 l adj) k →
      j ∈ adjGet adj k ∨ (i0 ≤ j ∧ j < i0 + l.length) := by
  intro l
  induction l with
  | nil => intro i0 adj k j h; exact Or.inl h
  | cons s rest ih =>
    intro i0 adj k j h
    rw [buildAdjGo] at h
    rcases ih (i0 + 1) _ k j h with hm | ⟨hle, hlt⟩
    · rcases adjGet_adjPush_mem _ _ _ _ _ hm with hm' | rfl
      · rcases adjGet_adjPush_mem _ _ _ _ _ hm' with hm'' | rfl
        · exact Or.inl hm''
        · exact Or.inr ⟨le_refl _, by simp⟩
      · exact Or.inr ⟨le_refl _, by simp⟩
    · exact Or.inr ⟨by omega, by simp; omega⟩

lemma buildAdj_mem (segs : List Seg) (k : ℤ × ℤ) (j : ℕ)
    (h : j ∈ adjGet (buildAdj segs) k) : j < segs.length := by
  rcases buildAdjGo_mem segs 0 [] k j h with hm | ⟨-, hlt⟩
  · simp [adjGet] at hm
  · simpa using hlt

lemma extendR_inv (segs : List Seg) (adj : Adj) (outer : List ℕ)
    (hadj : ∀ k j, j ∈ adjGet adj k → j < segs.length) :
    ∀ (fuel : ℕ) (used used' : List Bool) (chain chain' : List Vec2)
      (cons cons' : List ℕ) (r r' : Vec2),
      extendR segs adj fuel used chain cons r = (used', chain', cons', r') →
      used.length = segs.length →
      (∀ j, used.getD j false = true ↔ j ∈ outer ++ cons) →
      (outer ++ cons).Nodup →
      (∀ j ∈ outer ++ cons, j < segs.length) →
      used'.length = segs.length ∧
        (∀ j, used'.getD j false = true ↔ j ∈ outer ++ cons') ∧
        (outer ++ cons').Nodup ∧
        (∀ j ∈ outer ++ cons', j < segs.length) ∧
        chain'.length + cons.length = chain.length + cons'.length ∧
        ∃ t, cons' = cons ++ t := by
  intro fuel
  induction fuel with
  | zero =>
    intro used used' chain chain' cons cons' r r' heq hlen hinv hnd hbd
    rw [extendR] at heq
    simp only [Prod.mk.injEq] at heq
    obtain ⟨rfl, rfl, rfl, rfl⟩ := heq
    exact ⟨hlen, hinv, hnd, hbd, by omega, ⟨[], by simp⟩⟩
  | succ fuel ih =>
    intro used used' chain chain' cons cons' r r' heq hlen hinv hnd hbd
    cases hfn : findNext segs used (segKey r) (adjGet adj (segKey r)) with
    | none =>
      rw [extendR, hfn] at heq
      simp only [Prod.mk.injEq] at heq
      obtain ⟨rfl, rfl, rfl, rfl⟩ := heq
      exact ⟨hlen, hinv, hnd, hbd, by omega, ⟨[], by simp⟩⟩
    | some pair =>
      obtain ⟨idx, nxt⟩ := pair
      rw [extendR, hfn] at heq
      obtain ⟨hmem, hunused⟩ := findNext_some segs used _ _ idx nxt hfn
      have hidx : idx < segs.length := hadj _ _ hmem
      have hnotin : idx ∉ outer ++ cons := by
        intro hin
        rw [← hinv idx, hunused] at hin
        simp at hin
      have hlen' : (used.set idx true).length = segs.length := by
        rw [List.length_set]; exact hlen
      have hinv' : ∀ j,
          (used.set idx true).getD j false = true ↔ j ∈ outer ++ (cons ++ [idx]) := by
        intro j
        by_cases hji : j = idx
        · subst hji
          rw [getD_set_self used j true (hlen ▸ hidx)]
          simp
        · rw [getD_set_ne used idx j true (Ne.symm hji), hinv j]
          simp only [List.mem_append, List.mem_singleton]
          constructor
          · rintro (h | h)
            · exact Or.inl h
            · exact Or.inr (Or.inl h)
          · rintro (h | h | h)
            · exact Or.inl h
            · exact Or.inr h
            · exact absurd h hji
      have hnd' : (outer ++ (cons ++ [idx])).Nodup := by
        rw [← List.append_assoc]
        refine List.Nodup.append hnd (List.nodup_singleton idx) ?_
        intro x hx hx'
        simp only [List.mem_singleton] at hx'
        subst hx'
        exact hnotin hx
      have hbd' : ∀ j ∈ outer ++ (cons ++ [idx]), j < segs.length := by
        intro j hj
        rw [← List.append_assoc] at hj
        rcases List.mem_append.mp hj with hj | hj
        · exact hbd j hj
        · simp only [List.mem_singleton] at hj
          subst hj
          exact hidx
      obtain ⟨c1, c2, c3, c4, c5, c6⟩ :=
        ih _ _ _ _ _ _ _ _ heq hlen' hinv' hnd' hbd'
      refine ⟨c1, c2, c3, c4, ?_, ?_⟩
      · simp only [List.length_append, List.length_singleton] at c5
        omega
      · obtain ⟨t, ht⟩ := c6
        exact ⟨idx :: t, by rw [ht]; simp⟩

lemma extendL_inv (segs : List Seg) (adj : Adj) (outer : List ℕ)
    (hadj : ∀ k j, j ∈ adjGet adj k → j < segs.length) :
    ∀ (fuel : ℕ) (used used' : List Bool) (chain chain' : List Vec2)
      (cons cons' : List ℕ) (r r' : Vec2),
      extendL segs adj fuel used chain cons r = (used', chain', cons', r') →
      used.length = segs.length →
      (∀ j, used.getD j false = true ↔ j ∈ outer ++ cons) →
      (outer ++ cons).Nodup →
      (∀ j ∈ outer ++ cons, j < segs.length) →
      used'.length = segs.length ∧
        (∀ j, used'.getD j false = true ↔ j ∈ outer ++ cons') ∧
        (outer ++ cons').Nodup ∧
        (∀ j ∈ outer ++ cons', j < segs.length) ∧
        chain'.length + cons.length = chain.length + cons'.length ∧
        ∃ t, cons' = cons ++ t := by
  intro fuel
  induction fuel with
  | zero =>
    intro used used' chain chain' cons cons' r r' heq hlen hinv hnd hbd
    rw [extendL] at heq
    simp only [Prod.mk.injEq] at heq
    obtain ⟨rfl, rfl, rfl, rfl⟩ := heq
    exact ⟨hlen, hinv, hnd, hbd, by omega, ⟨[], by simp⟩⟩
  | succ fuel ih =>
    intro used used' chain chain' cons cons' r r' heq hlen hinv hnd hbd
    cases hfn : findNext segs used (segKey r) (adjGet adj (segKey r)) with
    | none =>
      rw [extendL, hfn] at heq
      simp only [Prod.mk.injEq] at heq
      obtain ⟨rfl, rfl, rfl, rfl⟩ := heq
      exact ⟨hlen, hinv, hnd, hbd, by omega, ⟨[], by simp⟩⟩
    | some pair =>
      obtain ⟨idx, nxt⟩ := pair
      rw [extendL, hfn] at heq
      obtain ⟨hmem, hunused⟩ := findNext_some segs used _ _ idx nxt hfn
      have hidx : idx < segs.length := hadj _ _ hmem
      have hnotin : idx ∉ outer ++ cons := by
        intro hin
        rw [← hinv idx, hunused] at hin
        simp at hin
      have hlen' : (used.set idx true).length = segs.length := by
        rw [List.length_set]; exact hlen
      have hinv' : ∀ j,
          (used.set idx true).getD j false = true ↔ j ∈ outer ++ (cons ++ [idx]) := by
        intro j
        by_cases hji : j = idx
        · subst hji
          rw [getD_set_self used j true (hlen ▸ hidx)]
          simp
        · rw [getD_set_ne used idx j true (Ne.symm hji), hinv j]
          simp only [List.mem_append, List.mem_singleton]
          constructor
          · rintro (h | h)
            · exact Or.inl h
            · exact Or.inr (Or.inl h)
          · rintro (h | h | h)
            · exact Or.inl h
            · exact Or.inr h
            · exact absurd h hji
      have hnd' : (outer ++ (cons ++ [idx])).Nodup := by
        rw [← List.append_assoc]
        refine List.Nodup.append hnd (List.nodup_singleton idx) ?_
        intro x hx hx'
        simp only [List.mem_singleton] at hx'
        subst hx'
        exact hnotin hx
      have hbd' : ∀ j ∈ outer ++ (cons ++ [idx]), j < segs.length := by
        intro j hj
        rw [← List.append_assoc] at hj
        rcases List.mem_append.mp hj with hj | hj
        · exact hbd j hj
        · simp only [List.mem_singleton] at hj
          subst hj
          exact hidx
      obtain ⟨c1, c2, c3, c4, c5, c6⟩ :=
        ih _ _ _ _ _ _ _ _ heq hlen' hinv' hnd' hbd'
      refine ⟨c1, c2, c3, c4, ?_, ?_⟩
      · simp only [List.length_append, List.length_singleton, List.length_cons,
          List.length_nil] at c5
        omega
      · obtain ⟨t, ht⟩ := c6
        exact ⟨idx :: t, by rw [ht]; simp⟩

lemma stitchLoop_inv (segs : List Seg) (adj : Adj)
    (hadj : ∀ k j, j ∈ adjGet adj k → j < segs.length) :
    ∀ (todo : List ℕ) (used used' : List Bool)
      (acc acc' : List (List Vec2 × List ℕ)),
      stitchLoop segs adj todo used acc = (used', acc') →
      used.length = segs.length →
      (∀ j, used.getD j false = true ↔ j ∈ (acc.map Prod.snd).flatten) →
      (acc.map Prod.snd).flatten.Nodup →
      (∀ j ∈ (acc.map Prod.snd).flatten, j < segs.length) →
      (∀ pc ∈ acc, pc.1.length = pc.2.length + 1) →
      (∀ x ∈ todo, x < segs.length) →
      used'.length = segs.length ∧
        (∀ j, used'.getD j false = true ↔ j ∈ (acc'.map Prod.snd).flatten) ∧
        (acc'.map Prod.snd).flatten.Nodup ∧
        (∀ j ∈ (acc'.map Prod.snd).flatten, j < segs.length) ∧
        (∀ pc ∈ acc', pc.1.length = pc.2.length + 1) ∧
        (∀ x ∈ todo, used'.getD x false = true) ∧
        (∀ j, used.getD j false = true → used'.getD j false = true) := by
  intro todo
  induction todo with
  | nil =>
    intro used used' acc acc' heq hlen hinv hnd hbd hch htodo
    rw [stitchLoop] at heq
    simp only [Prod.mk.injEq] at heq
    obtain ⟨rfl, rfl⟩ := heq
    exact ⟨hlen, hinv, hnd, hbd, hch, by simp, fun j h => h⟩
  | cons i todo ih =>
    intro used used' acc acc' heq hlen hinv hnd hbd hch htodo
    by_cases hu : used.getD i false = true
    · rw [stitchLoop, if_pos hu] at heq
      obtain ⟨c1, c2, c3, c4, c5, c6, c7⟩ :=
        ih _ _ _ _ heq hlen hinv hnd hbd hch (fun x hx => htodo x (List.mem_cons_of_mem i hx))
      refine ⟨c1, c2, c3, c4, c5, ?_, c7⟩
      intro x hx
      rcases List.mem_cons.mp hx with rfl | hx
      · exact c7 x hu
      · exact c6 x hx
    · rw [stitchLoop, if_neg hu] at heq
      rcases hR : extendR segs adj segs.length (used.set i true)
          [segA segs i, segB segs i] [i] (segB segs i) with ⟨u2, ch2, cn2, r2⟩
      rw [hR] at heq
      dsimp only at heq
      rcases hL : extendL segs adj segs.length u2 ch2 cn2 (segA segs i) with
        ⟨u3, ch3, cn3, r3⟩
      rw [hL] at heq
      dsimp only at heq
      have hi_n : i < segs.length := htodo i (List.mem_cons_self i todo)
      have hne_i : i ∉ (acc.map Prod.snd).flatten := fun hin => hu ((hinv i).2 hin)
      have hlen1 : (used.set i true).length = segs.length := by
        rw [List.length_set]; exact hlen
      have hinv1 : ∀ j, (used.set i true).getD j false = true ↔
          j ∈ (acc.map Prod.snd).flatten ++ [i] := by
        intro j
        by_cases hji : j = i
        · subst hji
          rw [getD_set_self used j true (hlen ▸ hi_n)]
          simp
        · rw [getD_set_ne used i j true (Ne.symm hji), hinv j]
          simp only [List.mem_append, List.mem_singleton]
          constructor
          · exact fun h => Or.inl h
          · rintro (h | h)
            · exact h
            · exact absurd h hji
      have hnd1 : ((acc.map Prod.snd).flatten ++ [i]).Nodup := by
        refine List.Nodup.append hnd (List.nodup_singleton i) ?_
        intro x hx hx'
        simp only [List.mem_singleton] at hx'
        subst hx'
        exact hne_i hx
      have hbd1 : ∀ j ∈ (acc.map Prod.snd).flatten ++ [i], j < segs.length := by
        intro j hj
        rcases List.mem_append.mp hj with hj | hj
        · exact hbd j hj
        · simp only [List.mem_singleton] at hj
          subst hj
          exact hi_n
      obtain ⟨d1, d2, d3, d4, d5, d6⟩ :=
        extendR_inv segs adj _ hadj _ _ _ _ _ _ _ _ _ hR hlen1 hinv1 hnd1 hbd1
      obtain ⟨e1, e2, e3, e4, e5, e6⟩ :=
        extendL_inv segs adj _ hadj _ _ _ _ _ _ _ _ _ hL d1 d2 d3 d4
      have hacc_eq : ((acc ++ [(ch3, cn3)]).map Prod.snd).flatten =
          (acc.map Prod.snd).flatten ++ cn3 := by
        simp
      have hinv3 : ∀ j, u3.getD j false = true ↔
          j ∈ ((acc ++ [(ch3, cn3)]).map Prod.snd).flatten := by
        intro j
        rw [hacc_eq]
        exact e2 j
      have hnd3 : ((acc ++ [(ch3, cn3)]).map Prod.snd).flatten.Nodup := by
        rw [hacc_eq]; exact e3
      have hbd3 : ∀ j ∈ ((acc ++ [(ch3, cn3)]).map Prod.snd).flatten,
          j < segs.length := by
        rw [hacc_eq]; exact e4
      have hch3 : ∀ pc ∈ acc ++ [(ch3, cn3)], pc.1.length = pc.2.length + 1 := by
        intro pc hpc
        rcases List.mem_append.mp hpc with hpc | hpc
        · exact hch pc hpc
        · simp only [List.mem_singleton] at hpc
          subst hpc
          show ch3.length = cn3.length + 1
          simp only [List.length_append, List.length_singleton, List.length_cons,
            List.length_nil] at d5 e5
          omega
      obtain ⟨c1, c2, c3, c4, c5, c6, c7⟩ :=
        ih _ _ _ _ heq e1 hinv3 hnd3 hbd3 hch3
          (fun x hx => htodo x (List.mem_cons_of_mem i hx))
      have hi3 : u3.getD i false = true := by
        apply (e2 i).2
        obtain ⟨t, ht⟩ := d6
        obtain ⟨t', ht'⟩ := e6
        apply List.mem_append_right
        rw [ht', ht]
        simp
      refine ⟨c1, c2, c3, c4, c5, ?_, ?_⟩
      · intro x hx
        rcases List.mem_cons.mp hx with rfl | hx
        · exact c7 x hi3
        · exact c6 x hx
      · intro j hj
        apply c7
        exact (e2 j).2 (List.mem_append_left _ ((hinv j).1 hj))

/-- C3: segment conservation — the sum over output polylines of
`(length − 1)` equals the number of input segments, and the segment indices
consumed by the chains form a permutation of `0, …, n−1`, i.e. every input
segment is consumed by exactly one output polyline. -/
theorem stitch_conservation (segs : List Seg) :
    ((stitchSegmentsToPolylines segs).map (fun c => c.length - 1)).sum =
        segs.length ∧
      ((stitchChains segs).map Prod.snd).flatten.Perm
        (List.range segs.length) := by
  rcases hS : stitchLoop segs (buildAdj segs) (List.range segs.length)
      (List.replicate segs.length false) [] with ⟨usedF, accF⟩
  have hadj : ∀ k j, j ∈ adjGet (buildAdj segs) k → j < segs.length :=
    fun k j h => buildAdj_mem segs k j h
  obtain ⟨c1, c2, c3, c4, c5, c6, c7⟩ :=
    stitchLoop_inv segs _ hadj _ _ _ _ _ hS
      (by simp)
      (by intro j; rw [getD_replicate_false]; simp)
      (by simp) (by simp) (by simp)
      (fun x hx => List.mem_range.mp hx)
  have hchains : stitchChains segs = accF := by
    unfold stitchChains
    rw [hS]
  have hperm : ((accF.map Prod.snd).flatten).Perm (List.range segs.length) := by
    refine (List.perm_ext_iff_of_nodup c3 (List.nodup_range _)).2 ?_
    intro a
    constructor
    · intro ha
      exact List.mem_range.mpr (c4 a ha)
    · intro ha
      exact (c2 a).1 (c6 a ha)
  refine ⟨?_, by rw [hchains]; exact hperm⟩
  unfold stitchSegmentsToPolylines
  rw [hchains]
  have hmap : (accF.map Prod.fst).map (fun c => c.length - 1) =
      accF.map (fun pc => pc.2.length) := by
    rw [List.map_map]
    apply List.map_congr_left
    intro pc hpc
    have h := c5 pc hpc
    simp only [Function.comp_apply]
    omega
  rw [hmap]
  have hsum : (accF.map (fun pc => pc.2.length)).sum =
      ((accF.map Prod.snd).flatten).length := by
    rw [List.length_flatten, List.map_map]
    rfl
  rw [hsum, hperm.length_eq, List.length_range]

/-! ### Contour extraction over JavaScript-number-valued fields

The source's scalar fields are JS `number`-valued and can return `NaN` or
`±Infinity` at a grid sample (e.g. `1/x^2 - 2` sampled at `x = 0`). This
section is the same extractor with the field's codomain being `JsNum`;
sample *positions* stay rational because they are computed from the finite
rectangle by finite arithmetic. The `ℚ` extractor above is the special case
in which every sample is finite. -/

/-- JavaScript subtraction. -/
def jsSub (a b : JsNum) : JsNum := jsAdd a (jsNeg b)

/-- `Math.abs`. -/
def jsAbs : JsNum → JsNum
  | .nan => .nan
  | .inf _ => .inf true
  | .fin a => .fin |a|

/-- JavaScript `>=`: false whenever NaN is involved. -/
def jsGe : JsNum → JsNum → Bool
  | .nan, _ => false
  | _, .nan => false
  | .inf s, .inf t => s || !t
  | .inf s, .fin _ => s
  | .fin _, .inf t => !t
  | .fin a, .fin b => decide (b ≤ a)

/-- The epsilon adjustment on a JS number:
`Math.abs(v) < 1e-15 ? (v >= 0 ? 1e-15 : -1e-15) : v`. NaN and infinities
fail the magnitude test and pass through unchanged. -/
def adjustEpsJ (v : JsNum) : JsNum :=
  if jsLt (jsAbs v) (.fin contourEps) then
    (if jsGe v (.fin 0) then .fin contourEps else .fin (-contourEps))
  else v

/-- A scalar field as the program sees it: rational sample positions, JS
number values. -/
abbrev JsField : Type := ℚ → ℚ → JsNum

/-- The sampled, epsilon-adjusted grid value `val[j][i]`. -/
def gridValJ (T : Transform) (field : JsField) (cols rows : ℕ) (j i : ℕ) : JsNum :=
  let dx := (T.xmax - T.xmin) / cols
  let dy := (T.ymax - T.ymin) / rows
  adjustEpsJ (field (T.xmin + i * dx) (T.ymin + j * dy))

/-- A contour segment with JS-number endpoints. -/
structure JsSeg where
  a : JsVec2
  b : JsVec2
deriving DecidableEq, Repr

/-- `lerpZero` on JS numbers: `t = v1/(v1-v2)` can be NaN (e.g. `∞/∞`). -/
def lerpZeroJ (x1 y1 v1 x2 y2 v2 : JsNum) : JsVec2 :=
  let t := jsDiv v1 (jsSub v1 v2)
  ⟨jsAdd x1 (jsMul t (jsSub x2 x1)), jsAdd y1 (jsMul t (jsSub y2 y1))⟩

/-- The per-cell `edgePoint` helper on JS numbers. -/
def edgePointJ (x0 x1 y0 y1 : ℚ) (v00 v10 v11 v01 : JsNum) : ℕ → JsVec2
  | 0 => lerpZeroJ (.fin x0) (.fin y0) v00 (.fin x0) (.fin y1) v01
  | 1 => lerpZeroJ (.fin x0) (.fin y0) v00 (.fin x1) (.fin y0) v10
  | 2 => lerpZeroJ (.fin x1) (.fin y0) v10 (.fin x1) (.fin y1) v11
  | 3 => lerpZeroJ (.fin x0) (.fin y1) v01 (.fin x1) (.fin y1) v11
  | _ => ⟨.fin x0, .fin y0⟩

/-- The 4-bit corner-sign code on JS numbers (`v > 0`; false for NaN). -/
def cellCodeJ (v00 v10 v11 v01 : JsNum) : ℕ :=
  (if jsLt (.fin 0) v00 then 1 else 0) + (if jsLt (.fin 0) v10 then 2 else 0) +
    (if jsLt (.fin 0) v11 then 4 else 0) + (if jsLt (.fin 0) v01 then 8 else 0)

/-- The `switch (c)` emission table on JS-number segments. -/
def codeEmitJ (e : ℕ → JsVec2) : ℕ → List JsSeg
  | 1 | 14 => [⟨e 0, e 1⟩]
  | 2 | 13 => [⟨e 1, e 2⟩]
  | 3 | 12 => [⟨e 0, e 2⟩]
  | 4 | 11 => [⟨e 2, e 3⟩]
  | 5 => [⟨e 0, e 1⟩, ⟨e 2, e 3⟩]
  | 6 | 9 => [⟨e 1, e 3⟩]
  | 7 | 8 => [⟨e 0, e 3⟩]
  | 10 => [⟨e 0, e 2⟩, ⟨e 1, e 3⟩]
  | _ => []

/-- The segments contributed by grid cell `(i, j)`. -/
def cellSegmentsJ (T : Transform) (field : JsField) (cols rows : ℕ)
    (j i : ℕ) : List JsSeg :=
  let dx := (T.xmax - T.xmin) / cols
  let dy := (T.ymax - T.ymin) / rows
  let x0 := T.xmin + i * dx
  let x1 := x0 + dx
  let y0 := T.ymin + j * dy
  let y1 := y0 + dy
  let v00 := gridValJ T field cols rows j i
  let v10 := gridValJ T field cols rows j (i + 1)
  let v11 := gridValJ T field cols rows (j + 1) (i + 1)
  let v01 := gridValJ T field cols rows (j + 1) i
  codeEmitJ (edgePointJ x0 x1 y0 y1 v00 v10 v11 v01) (cellCodeJ v00 v10 v11 v01)

/-- `zeroContourSegments` over a JS-number-valued field. -/
def zeroContourSegmentsJ (T : Transform) (field : JsField)
    (cols rows : ℕ) : List JsSeg :=
  (List.range rows).flatMap fun j =>
    (List.range cols).flatMap fun i => cellSegmentsJ T field cols rows j i

/-- Inclusive point-in-rectangle test on JS numbers: a NaN or infinite
coordinate does not lie in the rectangle. -/
def inRectJB (T : Transform) (p : JsVec2) : Bool :=
  match p.x, p.y with
  | .fin a, .fin b =>
    decide (T.xmin ≤ a) && decide (a ≤ T.xmax) &&
      decide (T.ymin ≤ b) && decide (b ≤ T.ymax)
  | _, _ => false

/-- Both endpoints lie inside the rectangle. -/
def segInRectJB (T : Transform) (s : JsSeg) : Bool :=
  inRectJB T s.a && inRectJB T s.b

/-- The field `1/x^2 - 2` in JS arithmetic: `+Infinity` at any sample with
`x = 0`. -/
def invSqField : JsField :=
  fun x _ => jsSub (jsDiv (.fin 1) (jsMul (.fin x) (.fin x))) (.fin 2)

lemma jsSub_fin (a b : ℚ) : jsSub (.fin a) (.fin b) = .fin (a - b) := by
  simp [jsSub, jsAdd, jsNeg, sub_eq_add_neg]

lemma adjustEpsJ_fin (a : ℚ) : adjustEpsJ (.fin a) = .fin (adjustEps a) := by
  simp only [adjustEpsJ, adjustEps, jsAbs, jsLt, jsGe, decide_eq_true_eq]
  split_ifs <;> rfl

lemma cellCodeJ_fin (a b c d : ℚ) :
    cellCodeJ (.fin a) (.fin b) (.fin c) (.fin d) = cellCode a b c d := by
  simp only [cellCodeJ, cellCode, jsLt, decide_eq_true_eq]

lemma lerpZeroJ_fin (x1 y1 x2 y2 v1 v2 : ℚ) (h : v1 - v2 ≠ 0) :
    lerpZeroJ (.fin x1) (.fin y1) (.fin v1) (.fin x2) (.fin y2) (.fin v2) =
      ⟨.fin ((lerpZero x1 y1 v1 x2 y2 v2).x), .fin ((lerpZero x1 y1 v1 x2 y2 v2).y)⟩ := by
  simp [lerpZeroJ, lerpZero, jsSub_fin, jsDiv, jsMul, jsAdd, h]

lemma inRectJB_fin (T : Transform) (a b : ℚ) :
    inRectJB T ⟨.fin a, .fin b⟩ = inRectB T ⟨a, b⟩ := rfl

lemma isFinite_exists (v : JsNum) (h : v.isFinite = true) : ∃ a : ℚ, v = .fin a := by
  cases v with
  | nan => simp [JsNum.isFinite] at h
  | inf s => simp [JsNum.isFinite] at h
  | fin a => exact ⟨a, rfl⟩

lemma lerpZeroJ_in_rect_vert (T : Transform) (x ya yb va vb : ℚ)
    (hop : oppSign va vb) (h1 : T.xmin ≤ x) (h2 : x ≤ T.xmax)
    (h3 : T.ymin ≤ ya) (h4 : ya ≤ yb) (h5 : yb ≤ T.ymax) :
    inRectJB T
      (lerpZeroJ (.fin x) (.fin ya) (.fin va) (.fin x) (.fin yb) (.fin vb)) = true := by
  have hne : va - vb ≠ 0 := by
    rcases hop with ⟨p, q⟩ | ⟨p, q⟩ <;> intro hz <;> linarith
  rw [lerpZeroJ_fin x ya x yb va vb hne, inRectJB_fin]
  exact lerpZero_in_rect_vert T x ya yb va vb hop h1 h2 h3 h4 h5

lemma lerpZeroJ_in_rect_horiz (T : Transform) (xa xb y va vb : ℚ)
    (hop : oppSign va vb) (h1 : T.xmin ≤ xa) (h2 : xa ≤ xb) (h3 : xb ≤ T.xmax)
    (h4 : T.ymin ≤ y) (h5 : y ≤ T.ymax) :
    inRectJB T
      (lerpZeroJ (.fin xa) (.fin y) (.fin va) (.fin xb) (.fin y) (.fin vb)) = true := by
  have hne : va - vb ≠ 0 := by
    rcases hop with ⟨p, q⟩ | ⟨p, q⟩ <;> intro hz <;> linarith
  rw [lerpZeroJ_fin xa y xb y va vb hne, inRectJB_fin]
  exact lerpZero_in_rect_horiz T xa xb y va vb hop h1 h2 h3 h4 h5

lemma codeEmitJ_in_rect (T : Transform) (x0 x1 y0 y1 v00 v10 v11 v01 : ℚ)
    (hx0l : T.xmin ≤ x0) (hx01 : x0 ≤ x1) (hx1r : x1 ≤ T.xmax)
    (hy0l : T.ymin ≤ y0) (hy01 : y0 ≤ y1) (hy1r : y1 ≤ T.ymax)
    (hne00 : v00 ≠ 0) (hne10 : v10 ≠ 0) (hne11 : v11 ≠ 0) (hne01 : v01 ≠ 0) :
    ∀ s ∈ codeEmitJ
      (edgePointJ x0 x1 y0 y1 (.fin v00) (.fin v10) (.fin v11) (.fin v01))
      (cellCodeJ (.fin v00) (.fin v10) (.fin v11) (.fin v01)),
      segInRectJB T s = true := by
  intro s hs
  rw [cellCodeJ_fin] at hs
  set e : ℕ → JsVec2 :=
    edgePointJ x0 x1 y0 y1 (.fin v00) (.fin v10) (.fin v11) (.fin v01) with he_def
  have hx0r : x0 ≤ T.xmax := le_trans hx01 hx1r
  have hx1l : T.xmin ≤ x1 := le_trans hx0l hx01
  have hy0r : y0 ≤ T.ymax := le_trans hy01 hy1r
  have hy1l : T.ymin ≤ y1 := le_trans hy0l hy01
  have he0 : oppSign v00 v01 → inRectJB T (e 0) = true := fun hop =>
    lerpZeroJ_in_rect_vert T x0 y0 y1 v00 v01 hop hx0l hx0r hy0l hy01 hy1r
  have he1 : oppSign v00 v10 → inRectJB T (e 1) = true := fun hop =>
    lerpZeroJ_in_rect_horiz T x0 x1 y0 v00 v10 hop hx0l hx01 hx1r hy0l hy0r
  have he2 : oppSign v10 v11 → inRectJB T (e 2) = true := fun hop =>
    lerpZeroJ_in_rect_vert T x1 y0 y1 v10 v11 hop hx1l hx1r hy0l hy01 hy1r
  have he3 : oppSign v01 v11 → inRectJB T (e 3) = true := fun hop =>
    lerpZeroJ_in_rect_horiz T x0 x1 y1 v01 v11 hop hx0l hx01 hx1r hy1l hy1r
  rcases lt_or_gt_of_ne hne00 with h00 | h00 <;>
    rcases lt_or_gt_of_ne hne10 with h10 | h10 <;>
    rcases lt_or_gt_of_ne hne11 with h11 | h11 <;>
    rcases lt_or_gt_of_ne hne01 with h01 | h01
  · -- code 0: nothing emitted
    have hc : cellCode v00 v10 v11 v01 = 0 := by
      unfold cellCode
      rw [if_neg (not_lt.mpr h00.le), if_neg (not_lt.mpr h10.le),
        if_neg (not_lt.mpr h11.le), if_neg (not_lt.mpr h01.le)]
    rw [hc] at hs
    simp only [codeEmitJ, List.not_mem_nil] at hs
  · -- code 8: segment (e0, e3)
    have hc : cellCode v00 v10 v11 v01 = 8 := by
      unfold cellCode
      rw [if_neg (not_lt.mpr h00.le), if_neg (not_lt.mpr h10.le),
        if_neg (not_lt.mpr h11.le), if_pos h01]
    rw [hc] at hs
    replace hs : s ∈ [JsSeg.mk (e 0) (e 3)] := hs
    simp only [List.mem_singleton] at hs
    subst hs
    simp only [segInRectJB, Bool.and_eq_true]
    exact ⟨he0 (Or.inr ⟨h00, h01⟩), he3 (Or.inl ⟨h01, h11⟩)⟩
  · -- code 4: segment (e2, e3)
    have hc : cellCode v00 v10 v11 v01 = 4 := by
      unfold cellCode
      rw [if_neg (not_lt.mpr h00.le), if_neg (not_lt.mpr h10.le),
        if_pos h11, if_neg (not_lt.mpr h01.le)]
    rw [hc] at hs
    replace hs : s ∈ [JsSeg.mk (e 2) (e 3)] := hs
    simp only [List.mem_singleton] at hs
    subst hs
    simp only [segInRectJB, Bool.and_eq_true]
    exact ⟨he2 (Or.inr ⟨h10, h11⟩), he3 (Or.inr ⟨h01, h11⟩)⟩
  · -- code 12: segment (e0, e2)
    have hc : cellCode v00 v10 v11 v01 = 12 := by
      unfold cellCode
      rw [if_neg (not_lt.mpr h00.le), if_neg (not_lt.mpr h10.le),
        if_pos h11, if_pos h01]
    rw [hc] at hs
    replace hs : s ∈ [JsSeg.mk (e 0) (e 2)] := hs
    simp only [List.mem_singleton] at hs
    subst hs
    simp only [segInRectJB, Bool.and_eq_true]
    exact ⟨he0 (Or.inr ⟨h00, h01⟩), he2 (Or.inr ⟨h10, h11⟩)⟩
  · -- code 2: segment (e1, e2)
    have hc : cellCode v00 v10 v11 v01 = 2 := by
      unfold cellCode
      rw [if_neg (not_lt.mpr h00.le), if_pos h10,
        if_neg (not_lt.mpr h11.le), if_neg (not_lt.mpr h01.le)]
    rw [hc] at hs
    replace hs : s ∈ [JsSeg.mk (e 1) (e 2)] := hs
    simp only [List.mem_singleton] at hs
    subst hs
    simp only [segInRectJB, Bool.and_eq_true]
    exact ⟨he1 (Or.inr ⟨h00, h10⟩), he2 (Or.inl ⟨h10, h11⟩)⟩
  · -- code 10: segments (e0, e2) and (e1, e3)
    have hc : cellCode v00 v10 v11 v01 = 10 := by
      unfold cellCode
      rw [if_neg (not_lt.mpr h00.le), if_pos h10,
        if_neg (not_lt.mpr h11.le), if_pos h01]
    rw [hc] at hs
    replace hs : s ∈ [JsSeg.mk (e 0) (e 2), JsSeg.mk (e 1) (e 3)] := hs
    simp only [List.mem_cons, List.mem_singleton, List.not_mem_nil, or_false] at hs
    rcases hs with rfl | rfl
    · simp only [segInRectJB, Bool.and_eq_true]
      exact ⟨he0 (Or.inr ⟨h00, h01⟩), he2 (Or.inl ⟨h10, h11⟩)⟩
    · simp only [segInRectJB, Bool.and_eq_true]
      exact ⟨he1 (Or.inr ⟨h00, h10⟩), he3 (Or.inl ⟨h01, h11⟩)⟩
  · -- code 6: segment (e1, e3)
    have hc : cellCode v00 v10 v11 v01 = 6 := by
      unfold cellCode
      rw [if_neg (not_lt.mpr h00.le), if_pos h10, if_pos h11,
        if_neg (not_lt.mpr h01.le)]
    rw [hc] at hs
    replace hs : s ∈ [JsSeg.mk (e 1) (e 3)] := hs
    simp only [List.mem_singleton] at hs
    subst hs
    simp only [segInRectJB, Bool.and_eq_true]
    exact ⟨he1 (Or.inr ⟨h00, h10⟩), he3 (Or.inr ⟨h01, h11⟩)⟩
  · -- code 14: segment (e0, e1)
    have hc : cellCode v00 v10 v11 v01 = 14 := by
      unfold cellCode
      rw [if_neg (not_lt.mpr h00.le), if_pos h10, if_pos h11, if_pos h01]
    rw [hc] at hs
    replace hs : s ∈ [JsSeg.mk (e 0) (e 1)] := hs
    simp only [List.mem_singleton] at hs
    subst hs
    simp only [segInRectJB, Bool.and_eq_true]
    exact ⟨he0 (Or.inr ⟨h00, h01⟩), he1 (Or.inr ⟨h00, h10⟩)⟩
  · -- code 1: segment (e0, e1)
    have hc : cellCode v00 v10 v11 v01 = 1 := by
      unfold cellCode
      rw [if_pos h00, if_neg (not_lt.mpr h10.le),
        if_neg (not_lt.mpr h11.le), if_neg (not_lt.mpr h01.le)]
    rw [hc] at hs
    replace hs : s ∈ [JsSeg.mk (e 0) (e 1)] := hs
    simp only [List.mem_singleton] at hs
    subst hs
    simp only [segInRectJB, Bool.and_eq_true]
    exact ⟨he0 (Or.inl ⟨h00, h01⟩), he1 (Or.inl ⟨h00, h10⟩)⟩
  · -- code 9: segment (e1, e3)
    have hc : cellCode v00 v10 v11 v01 = 9 := by
      unfold cellCode
      rw [if_pos h00, if_neg (not_lt.mpr h10.le),
        if_neg (not_lt.mpr h11.le), if_pos h01]
    rw [hc] at hs
    replace hs : s ∈ [JsSeg.mk (e 1) (e 3)] := hs
    simp only [List.mem_singleton] at hs
    subst hs
    simp only [segInRectJB, Bool.and_eq_true]
    exact ⟨he1 (Or.inl ⟨h00, h10⟩), he3 (Or.inl ⟨h01, h11⟩)⟩
  · -- code 5: segments (e0, e1) and (e2, e3)
    have hc : cellCode v00 v10 v11 v01 = 5 := by
      unfold cellCode
      rw [if_pos h00, if_neg (not_lt.mpr h10.le), if_pos h11,
        if_neg (not_lt.mpr h01.le)]
    rw [hc] at hs
    replace hs : s ∈ [JsSeg.mk (e 0) (e 1), JsSeg.mk (e 2) (e 3)] := hs
    simp only [List.mem_cons, List.mem_singleton, List.not_mem_nil, or_false] at hs
    rcases hs with rfl | rfl
    · simp only [segInRectJB, Bool.and_eq_true]
      exact ⟨he0 (Or.inl ⟨h00, h01⟩), he1 (Or.inl ⟨h00, h10⟩)⟩
    · simp only [segInRectJB, Bool.and_eq_true]
      exact ⟨he2 (Or.inr ⟨h10, h11⟩), he3 (Or.inr ⟨h01, h11⟩)⟩
  · -- code 13: segment (e1, e2)
    have hc : cellCode v00 v10 v11 v01 = 13 := by
      unfold cellCode
      rw [if_pos h00, if_neg (not_lt.mpr h10.le), if_pos h11, if_pos h01]
    rw [hc] at hs
    replace hs : s ∈ [JsSeg.mk (e 1) (e 2)] := hs
    simp only [List.mem_singleton] at hs
    subst hs
    simp only [segInRectJB, Bool.and_eq_true]
    exact ⟨he1 (Or.inl ⟨h00, h10⟩), he2 (Or.inr ⟨h10, h11⟩)⟩
  · -- code 3: segment (e0, e2)
    have hc : cellCode v00 v10 v11 v01 = 3 := by
      unfold cellCode
      rw [if_pos h00, if_pos h10, if_neg (not_lt.mpr h11.le),
        if_neg (not_lt.mpr h01.le)]
    rw [hc] at hs
    replace hs : s ∈ [JsSeg.mk (e 0) (e 2)] := hs
    simp only [List.mem_singleton] at hs
    subst hs
    simp only [segInRectJB, Bool.and_eq_true]
    exact ⟨he0 (Or.inl ⟨h00, h01⟩), he2 (Or.inl ⟨h10, h11⟩)⟩
  · -- code 11: segment (e2, e3)
    have hc : cellCode v00 v10 v11 v01 = 11 := by
      unfold cellCode
      rw [if_pos h00, if_pos h10, if_neg (not_lt.mpr h11.le), if_pos h01]
    rw [hc] at hs
    replace hs : s ∈ [JsSeg.mk (e 2) (e 3)] := hs
    simp only [List.mem_singleton] at hs
    subst hs
    simp only [segInRectJB, Bool.and_eq_true]
    exact ⟨he2 (Or.inl ⟨h10, h11⟩), he3 (Or.inl ⟨h01, h11⟩)⟩
  · -- code 7: segment (e0, e3)
    have hc : cellCode v00 v10 v11 v01 = 7 := by
      unfold cellCode
      rw [if_pos h00, if_pos h10, if_pos h11, if_neg (not_lt.mpr h01.le)]
    rw [hc] at hs
    replace hs : s ∈ [JsSeg.mk (e 0) (e 3)] := hs
    simp only [List.mem_singleton] at hs
    subst hs
    simp only [segInRectJB, Bool.and_eq_true]
    exact ⟨he0 (Or.inl ⟨h00, h01⟩), he3 (Or.inr ⟨h01, h11⟩)⟩
  · -- code 15: nothing emitted
    have hc : cellCode v00 v10 v11 v01 = 15 := by
      unfold cellCode
      rw [if_pos h00, if_pos h10, if_pos h11, if_pos h01]
    rw [hc] at hs
    simp only [codeEmitJ, List.not_mem_nil] at hs

/-- Unfolding of `gridValJ` into its constituent calls. -/
lemma gridValJ_eq (T : Transform) (field : JsField) (cols rows j i : ℕ) :
    gridValJ T field cols rows j i =
      adjustEpsJ (field (T.xmin + i * ((T.xmax - T.xmin) / cols))
        (T.ymin + j * ((T.ymax - T.ymin) / rows))) := rfl

/-- Unfolding of `cellSegmentsJ` into its constituent calls. -/
lemma cellSegmentsJ_eq (T : Transform) (field : JsField) (cols rows j i : ℕ) :
    cellSegmentsJ T field cols rows j i =
      codeEmitJ
        (edgePointJ (T.xmin + i * ((T.xmax - T.xmin) / cols))
          (T.xmin + i * ((T.xmax - T.xmin) / cols) + (T.xmax - T.xmin) / cols)
          (T.ymin + j * ((T.ymax - T.ymin) / rows))
          (T.ymin + j * ((T.ymax - T.ymin) / rows) + (T.ymax - T.ymin) / rows)
          (gridValJ T field cols rows j i) (gridValJ T field cols rows j (i + 1))
          (gridValJ T field cols rows (j + 1) (i + 1))
          (gridValJ T field cols rows (j + 1) i))
        (cellCodeJ (gridValJ T field cols rows j i)
          (gridValJ T field cols rows j (i + 1))
          (gridValJ T field cols rows (j + 1) (i + 1))
          (gridValJ T field cols rows (j + 1) i)) := rfl

lemma cellSegmentsJ_in_rect (T : Transform) (field : JsField)
    (cols rows j i : ℕ) (hx : T.xmin < T.xmax) (hy : T.ymin < T.ymax)
    (hi : i < cols) (hj : j < rows)
    (hfin : ∀ j', j' ≤ rows → ∀ i', i' ≤ cols →
      (field (T.xmin + i' * ((T.xmax - T.xmin) / cols))
        (T.ymin + j' * ((T.ymax - T.ymin) / rows))).isFinite = true) :
    ∀ s ∈ cellSegmentsJ T field cols rows j i, segInRectJB T s = true := by
  intro s hs
  rw [cellSegmentsJ_eq] at hs
  obtain ⟨a00, ha00⟩ := isFinite_exists _ (hfin j hj.le i hi.le)
  obtain ⟨a10, ha10⟩ := isFinite_exists _ (hfin j hj.le (i + 1) hi)
  obtain ⟨a11, ha11⟩ := isFinite_exists _ (hfin (j + 1) hj (i + 1) hi)
  obtain ⟨a01, ha01⟩ := isFinite_exists _ (hfin (j + 1) hj i hi.le)
  have hv00 : gridValJ T field cols rows j i = .fin (adjustEps a00) := by
    rw [gridValJ_eq, ha00, adjustEpsJ_fin]
  have hv10 : gridValJ T field cols rows j (i + 1) = .fin (adjustEps a10) := by
    rw [gridValJ_eq, ha10, adjustEpsJ_fin]
  have hv11 : gridValJ T field cols rows (j + 1) (i + 1) = .fin (adjustEps a11) := by
    rw [gridValJ_eq, ha11, adjustEpsJ_fin]
  have hv01 : gridValJ T field cols rows (j + 1) i = .fin (adjustEps a01) := by
    rw [gridValJ_eq, ha01, adjustEpsJ_fin]
  rw [hv00, hv10, hv11, hv01] at hs
  have hcolsQ : (0 : ℚ) < cols := by
    exact_mod_cast Nat.lt_of_le_of_lt (Nat.zero_le i) hi
  have hrowsQ : (0 : ℚ) < rows := by
    exact_mod_cast Nat.lt_of_le_of_lt (Nat.zero_le j) hj
  have hdx : 0 < (T.xmax - T.xmin) / cols := div_pos (by linarith) hcolsQ
  have hdy : 0 < (T.ymax - T.ymin) / rows := div_pos (by linarith) hrowsQ
  have hiQ : (i : ℚ) + 1 ≤ cols := by exact_mod_cast Nat.succ_le_of_lt hi
  have hjQ : (j : ℚ) + 1 ≤ rows := by exact_mod_cast Nat.succ_le_of_lt hj
  have hcd : (cols : ℚ) * ((T.xmax - T.xmin) / cols) = T.xmax - T.xmin := by
    field_simp
  have hrd : (rows : ℚ) * ((T.ymax - T.ymin) / rows) = T.ymax - T.ymin := by
    field_simp
  refine codeEmitJ_in_rect T _ _ _ _ _ _ _ _ ?_ ?_ ?_ ?_ ?_ ?_
    (adjustEps_ne_zero a00) (adjustEps_ne_zero a10)
    (adjustEps_ne_zero a11) (adjustEps_ne_zero a01) s hs
  · have : 0 ≤ (i : ℚ) * ((T.xmax - T.xmin) / cols) :=
      mul_nonneg (Nat.cast_nonneg i) hdx.le
    linarith
  · linarith
  · have hmul : ((i : ℚ) + 1) * ((T.xmax - T.xmin) / cols) ≤
        cols * ((T.xmax - T.xmin) / cols) := by nlinarith
    nlinarith
  · have : 0 ≤ (j : ℚ) * ((T.ymax - T.ymin) / rows) :=
      mul_nonneg (Nat.cast_nonneg j) hdy.le
    linarith
  · linarith
  · have hmul : ((j : ℚ) + 1) * ((T.ymax - T.ymin) / rows) ≤
        rows * ((T.ymax - T.ymin) / rows) := by nlinarith
    nlinarith

/-- C10 (amended): provided every sampled field value is finite, every
endpoint of every segment returned by the contour extractor lies within the
sampled rectangle (inclusive): each emitted edge point then interpolates
between two adjusted corner values of strictly opposite sign, so `t` lies in
`[0, 1]` and the point stays on its cell edge inside the rectangle. -/
theorem contour_points_in_rect_finite (T : Transform) (field : JsField)
    (cols rows : ℕ) (hx : T.xmin < T.xmax) (hy : T.ymin < T.ymax)
    (hfin : ∀ j', j' ≤ rows → ∀ i', i' ≤ cols →
      (field (T.xmin + i' * ((T.xmax - T.xmin) / cols))
        (T.ymin + j' * ((T.ymax - T.ymin) / rows))).isFinite = true) :
    (zeroContourSegmentsJ T field cols rows).all (segInRectJB T) = true := by
  rw [List.all_eq_true]
  intro s hs
  unfold zeroContourSegmentsJ at hs
  rw [List.mem_flatMap] at hs
  obtain ⟨j, hj, hs⟩ := hs
  rw [List.mem_flatMap] at hs
  obtain ⟨i, hi, hs⟩ := hs
  rw [List.mem_range] at hj hi
  exact cellSegmentsJ_in_rect T field cols rows j i hx hy hi hj hfin s hs

/-- Witness for `contour_points_in_rect_finite` on a concrete rectangle and
an everywhere-finite field. -/
theorem contour_points_in_rect_finite_witness :
    (0 : ℚ) < 1 ∧
      (zeroContourSegmentsJ (Transform.mk 0 1 0 1)
          (fun x _ => .fin (x - 1 / 2)) 1 1).all
        (segInRectJB (Transform.mk 0 1 0 1)) = true :=
  ⟨by norm_num,
    contour_points_in_rect_finite (Transform.mk 0 1 0 1)
      (fun x _ => .fin (x - 1 / 2)) 1 1 (by norm_num) (by norm_num)
      (fun j' _ i' _ => rfl)⟩

/-- C10 (counterexample to the claim as stated): the field `1/x^2 - 2` on the
rectangle `[-1,1]×[-1,1]` with a 2×1 grid samples `x = 0` exactly, where it
evaluates to `+Infinity`; that sample passes the epsilon adjustment
unchanged, classifies as positive, and the cell `[0,1]×[-1,1]` (code 9)
interpolates `t = ∞/∞ = NaN`, emitting a segment whose endpoints are
`(NaN, NaN)` — not inside the rectangle. The second conjunct records the
non-finite sample. -/
theorem contour_points_in_rect_cex :
    (zeroContourSegmentsJ (Transform.mk (-1) 1 (-1) 1) invSqField 2 1).all
        (segInRectJB (Transform.mk (-1) 1 (-1) 1)) = false ∧
      (invSqField 0 (-1)).isFinite = false := by
  have c1 : cellSegmentsJ (Transform.mk (-1) 1 (-1) 1) invSqField 2 1 0 1 =
      [⟨⟨.nan, .nan⟩, ⟨.nan, .nan⟩⟩] := by
    norm_num [cellSegmentsJ, gridValJ, adjustEpsJ, invSqField, jsSub, jsAdd,
      jsNeg, jsMul, jsDiv, jsLt, jsGe, jsAbs, cellCodeJ, codeEmitJ,
      edgePointJ, lerpZeroJ, contourEps]
  have hmem : (⟨⟨.nan, .nan⟩, ⟨.nan, .nan⟩⟩ : JsSeg) ∈
      zeroContourSegmentsJ (Transform.mk (-1) 1 (-1) 1) invSqField 2 1 := by
    unfold zeroContourSegmentsJ
    rw [List.mem_flatMap]
    refine ⟨0, by norm_num, ?_⟩
    rw [List.mem_flatMap]
    refine ⟨1, by norm_num, ?_⟩
    rw [c1]
    simp
  have hbadp : segInRectJB (Transform.mk (-1) 1 (-1) 1)
      ⟨⟨.nan, .nan⟩, ⟨.nan, .nan⟩⟩ = false := rfl
  constructor
  · by_contra h
    rw [Bool.not_eq_false, List.all_eq_true] at h
    have hcontra := h _ hmem
    rw [hbadp] at hcontra
    exact Bool.false_ne_true hcontra
  · norm_num [invSqField, jsSub, jsAdd, jsNeg, jsMul, jsDiv, JsNum.isFinite]

end PhasePlane
